import Mathlib

/-!
Verification of the reactive-value framework of `reaction` (headers
`resource.h`, `expression.h`, `dataSource.h`).

The headers declare the data model (a `Resource` value cell, an
`Expression` wrapping a function with captured argument handles, a
`DataSource` front-end with `var`/`calc` constructors) but contain no
executable logic: `DataSource::get` has an empty body and no propagation
engine exists in the sources.  Accordingly this development has two parts.

Part 1 (`Reaction` namespace) is an executable model of the propagation
engine, modelled from the specification (value cells with version
counters, source and computed nodes, dirty marking, rank/level-order
propagation, cycle guard, error states).  Every definition whose logic is
absent from the sources carries a doc comment starting with
`Modelled from the spec:`.

Part 2 (`Hdr` namespace) models exactly what the headers do declare: the
template-specialization structure of `Expression`, the fields of each
instantiation, and default-initialized `unique_ptr` value storage.
-/

namespace Reaction

/-- Node identifiers: stable handles for graph nodes. -/
abbrev NodeId := Nat

/-- Modelled from the spec: the per-node state machine
Clean → Dirty → Clean / Error (§4.4 of the spec); absent from the sources. -/
inductive NodeState where
  | clean
  | dirty
  | error
deriving DecidableEq, Repr

/-- Modelled from the spec: `ValueCell<T>` (the spec-level reading of
`Resource<Type>`): one value plus a version counter incremented on every
write; the sources declare only the storage member, no read/write logic. -/
structure ValueCell where
  value : Int
  version : Nat
deriving DecidableEq, Repr

/-- Modelled from the spec: `read() -> (T, version)`, no side effects. -/
def ValueCell.read (c : ValueCell) : Int × Nat :=
  (c.value, c.version)

/-- Modelled from the spec: `write(T) -> version`: stores the new value,
increments the version, returns the new version. -/
def ValueCell.write (c : ValueCell) (v : Int) : ValueCell × Nat :=
  (⟨v, c.version + 1⟩, c.version + 1)

/-- Run a sequence of writes, returning the final cell and the list of
versions returned by the individual writes. -/
def writeSeq (c : ValueCell) : List Int → ValueCell × List Nat
  | [] => (c, [])
  | v :: vs =>
    ((writeSeq (c.write v).1 vs).1, (c.write v).2 :: (writeSeq (c.write v).1 vs).2)

/-- Modelled from the spec: the two node kinds.  A `SourceNode` has no
dependencies and no function; a `ComputedNode` stores a computation over
the current values of its dependencies.  The function returns `none` to
model a raised error (ComputationFailure). -/
inductive NodeKind where
  | source
  | computed (fn : List Int → Option Int) (deps : List NodeId)

/-- Modelled from the spec: a graph node: value cell, kind, dirty/clean
state, and an observable counter of how often its function was invoked. -/
structure Node where
  cell : ValueCell
  kind : NodeKind
  state : NodeState
  callCount : Nat

/-- Modelled from the spec: the dependency graph, sized, with a total
node-lookup function (indices at or beyond `size` are not live nodes). -/
structure Graph where
  size : Nat
  node : Nat → Node

/-- Update one node of the graph. -/
def Graph.upd (g : Graph) (j : NodeId) (f : Node → Node) : Graph :=
  ⟨g.size, fun k => if k = j then f (g.node k) else g.node k⟩

/-- Kind of a node; out-of-range handles read as inert sources. -/
def kindOf (g : Graph) (j : NodeId) : NodeKind :=
  if j < g.size then (g.node j).kind else .source

/-- Dependency list of a node (empty for sources). -/
def depsOf (g : Graph) (j : NodeId) : List NodeId :=
  match kindOf g j with
  | .source => []
  | .computed _ ds => ds

/-- State of a node; out-of-range handles read as clean. -/
def stateOf (g : Graph) (j : NodeId) : NodeState :=
  if j < g.size then (g.node j).state else .clean

/-- Current cached value of a node. -/
def valueOf (g : Graph) (j : NodeId) : Int :=
  if j < g.size then (g.node j).cell.value else 0

/-- Current version stamp of a node's value cell. -/
def versionOf (g : Graph) (j : NodeId) : Nat :=
  if j < g.size then (g.node j).cell.version else 0

/-- Observable count of invocations of a node's stored function. -/
def callCountOf (g : Graph) (j : NodeId) : Nat :=
  if j < g.size then (g.node j).callCount else 0

/-- The stored computation of a node (a trivial total function for
sources, which never recompute). -/
def fnAt (g : Graph) (j : NodeId) : List Int → Option Int :=
  match kindOf g j with
  | .source => fun _ => some 0
  | .computed fn _ => fn

/-- Modelled from the spec: direct dependents of `i`: the live nodes whose
dependency list contains `i`. -/
def dependentsOf (g : Graph) (i : NodeId) : List NodeId :=
  (List.range g.size).filter fun j => decide (i ∈ depsOf g j)

/-- One expansion step of the affected-set discovery walk: keep current
members and add every live node with a dependency already in the set. -/
def stepAffected (g : Graph) (s : List NodeId) : List NodeId :=
  (List.range g.size).filter fun j =>
    decide (j ∈ s) || (depsOf g j).any fun d => decide (d ∈ s)

/-- Iterate the expansion step. -/
def affectedAux (g : Graph) : Nat → List NodeId → List NodeId
  | 0, s => s
  | k + 1, s => affectedAux g k (stepAffected g s)

/-- Modelled from the spec: step 2 of the propagation algorithm: the
affected set of a change at `i`, discovered by walking dependent edges
from `i` to closure (the graph has at most `size` nodes, so `size`
expansion steps reach the closure). -/
def affected (g : Graph) (i : NodeId) : List NodeId :=
  affectedAux g g.size (dependentsOf g i)

/-- Transitive dependence: `Reaches g i j` holds when `j` is a live node
that transitively reads `i` through dependency edges. -/
inductive Reaches (g : Graph) (i : NodeId) : NodeId → Prop where
  | direct (j : NodeId) : i ∈ depsOf g j → j < g.size → Reaches g i j
  | step (j k : NodeId) : Reaches g i j → j ∈ depsOf g k → k < g.size → Reaches g i k

/-- A transitive-dependency path from `j` down through `l` and back to
`e`: `DepPath g e l j` means `j` reads `e` through the intermediate nodes
`l`.  `DepPath g j l j` exhibits a dependency cycle through `j`. -/
inductive DepPath (g : Graph) : NodeId → List NodeId → NodeId → Prop where
  | single (d j : NodeId) : d ∈ depsOf g j → DepPath g d [] j
  | cons (d e j : NodeId) (l : List NodeId) :
      d ∈ depsOf g j → DepPath g e l d → DepPath g e (d :: l) j

/-- Modelled from the spec: propagation-pass errors (§7): a detected
dependency cycle, or a computation that raised during recomputation. -/
inductive PropError where
  | cycleDetected
  | computationFailure
deriving DecidableEq, Repr

/-- One recomputation event of a pass: which node was recomputed and
whether all of its dependencies were settled (non-dirty) at the moment its
function was invoked. -/
structure Event where
  node : NodeId
  settled : Bool
deriving DecidableEq, Repr

/-- Result of a propagation pass: final graph, the recomputation trace,
and the error surfaced to the caller, if any. -/
structure PropResult where
  g : Graph
  events : List Event
  err : Option PropError

/-- All dependencies of `j` are settled (none is dirty). -/
def allDepsSettled (g : Graph) (j : NodeId) : Bool :=
  (depsOf g j).all fun d => !decide (stateOf g d = NodeState.dirty)

/-- Modelled from the spec: recompute one computed node now: invoke its
stored function on the current values of its dependencies; on success
store the result through the value cell's write path and become clean; on
failure keep the previous cached value and transition to the Error state.
Either way the invocation counter advances. -/
def recomputeOne (g : Graph) (j : NodeId) : Graph × Bool :=
  match kindOf g j with
  | .source => (g, true)
  | .computed fn ds =>
    match fn (ds.map (valueOf g)) with
    | some v =>
      (g.upd j fun n =>
        { cell := (n.cell.write v).1, kind := n.kind, state := .clean,
          callCount := n.callCount + 1 }, true)
    | none =>
      (g.upd j fun n =>
        { cell := n.cell, kind := n.kind, state := .error,
          callCount := n.callCount + 1 }, false)

/-- The dirty live nodes. -/
def dirtyIds (g : Graph) : List NodeId :=
  (List.range g.size).filter fun j => decide (stateOf g j = NodeState.dirty)

/-- Modelled from the spec: the nodes processable in the current rank
level: dirty, and every dependency already settled (glitch-freedom:
a node is never evaluated while any of its dependencies is dirty). -/
def readyIds (g : Graph) : List NodeId :=
  (List.range g.size).filter fun j =>
    decide (stateOf g j = NodeState.dirty) && allDepsSettled g j

/-- Modelled from the spec: process one rank level: recompute each ready
node in order, recording an event per invocation; a computation failure
halts the pass immediately with a ComputationFailure error and no
rollback. -/
def runReady : Graph → List NodeId → PropResult
  | g, [] => ⟨g, [], none⟩
  | g, j :: rest =>
    match recomputeOne g j with
    | (g1, true) =>
      ⟨(runReady g1 rest).g,
       ⟨j, allDepsSettled g j⟩ :: (runReady g1 rest).events,
       (runReady g1 rest).err⟩
    | (g1, false) => ⟨g1, [⟨j, allDepsSettled g j⟩], some .computationFailure⟩

/-- Modelled from the spec: the level-order propagation loop (§4.4 steps
3–5).  Each iteration processes every node whose affected dependencies
have all settled; if dirty nodes remain but none is ready, the discovery
walk has closed a cycle and the pass aborts with CycleDetected instead of
looping; already-settled nodes are not rolled back.  The fuel argument is
a bound on the number of levels; `size` levels always suffice for an
acyclic affected set, and exhausting the fuel with dirty nodes remaining
likewise reports the cycle. -/
def propagateAux : Nat → Graph → PropResult
  | 0, g => ⟨g, [], if dirtyIds g = [] then none else some .cycleDetected⟩
  | fuel + 1, g =>
    if dirtyIds g = [] then ⟨g, [], none⟩
    else
      if readyIds g = [] then ⟨g, [], some .cycleDetected⟩
      else
        match (runReady g (readyIds g)).err with
        | some e =>
          ⟨(runReady g (readyIds g)).g, (runReady g (readyIds g)).events, some e⟩
        | none =>
          ⟨(propagateAux fuel (runReady g (readyIds g)).g).g,
           (runReady g (readyIds g)).events ++
             (propagateAux fuel (runReady g (readyIds g)).g).events,
           (propagateAux fuel (runReady g (readyIds g)).g).err⟩

/-- Modelled from the spec: run a full propagation pass. -/
def propagate (g : Graph) : PropResult :=
  propagateAux g.size g

/-- Set the state flag of one node. -/
def setState (g : Graph) (j : NodeId) (s : NodeState) : Graph :=
  g.upd j fun n => { n with state := s }

/-- Write a value into one node's cell through the versioned write path. -/
def writeCell (g : Graph) (j : NodeId) (v : Int) : Graph :=
  g.upd j fun n => { n with cell := (n.cell.write v).1 }

/-- Mark every listed live node dirty. -/
def markDirty (g : Graph) (l : List NodeId) : Graph :=
  ⟨g.size, fun k => if k ∈ l then { g.node k with state := .dirty } else g.node k⟩

/-- Modelled from the spec: a propagation pass rooted at source `i`
(§4.4): mark the changed source clean-with-new-value, discover the
affected set and mark it dirty, then run the level-order loop. -/
def propagateFrom (g : Graph) (i : NodeId) : PropResult :=
  propagate (markDirty (setState g i .clean) (affected (setState g i .clean) i))

/-- Modelled from the spec: `set(new_value)` on a source node: write the
new value into its value cell, mark itself dirty, and synchronously run a
propagation pass rooted at this node before returning. -/
def set (g : Graph) (i : NodeId) (v : Int) : PropResult :=
  propagateFrom (setState (writeCell g i v) i .dirty) i

/-- Modelled from the spec: `get()`: sources return their current value
with no recomputation; clean computed nodes return the cached value with
no recomputation (memoized read); dirty or errored computed nodes are
evaluated now, returning `none` and entering the Error state if the stored
function raises. -/
def get (g : Graph) (j : NodeId) : Option Int × Graph :=
  match kindOf g j with
  | .source => (some (valueOf g j), g)
  | .computed _ _ =>
    match stateOf g j with
    | .clean => (some (valueOf g j), g)
    | _ =>
      match recomputeOne g j with
      | (g1, true) => (some (valueOf g1 j), g1)
      | (g1, false) => (none, g1)

/-- Modelled from the spec: `var(initial_value)`: a fresh source node
seeded with the initial value, Clean, version 0, never yet invoked. -/
def var (v : Int) : Node :=
  { cell := ⟨v, 0⟩, kind := .source, state := .clean, callCount := 0 }

/-- A computed node with a cached initial value (freshly constructed nodes
are Clean with the provided computed value). -/
def calcNode (v : Int) (fn : List Int → Option Int) (ds : List NodeId) : Node :=
  { cell := ⟨v, 0⟩, kind := .computed fn ds, state := .clean, callCount := 0 }

/-- A node's cached value agrees with its function applied to the current
values of its dependencies (trivially true for sources). -/
def Consistent (g : Graph) (j : NodeId) : Prop :=
  ∀ fn ds, kindOf g j = .computed fn ds →
    fn (ds.map (valueOf g)) = some (valueOf g j)

/-- Every live node is clean. -/
def AllClean (g : Graph) : Prop :=
  ∀ j < g.size, stateOf g j = NodeState.clean

/-- The dependency graph is acyclic: some rank function strictly drops
along every dependency edge. -/
def Acyclic (g : Graph) : Prop :=
  ∃ rank : NodeId → Nat, ∀ j < g.size, ∀ d ∈ depsOf g j, rank d < rank j

/-- Every live node's stored function is total (never raises). -/
def TotalFns (g : Graph) : Prop :=
  ∀ j < g.size, ∀ vals, (fnAt g j vals).isSome = true

/-- Every dirty node is a computed node. -/
def DirtyComputed (g : Graph) : Prop :=
  ∀ j, stateOf g j = NodeState.dirty → ∃ fn ds, kindOf g j = .computed fn ds

/-- Two graphs have the same shape: same size and the same kind (hence
the same function and dependency list) at every handle. -/
def SameShape (g h : Graph) : Prop :=
  g.size = h.size ∧ ∀ j, kindOf g j = kindOf h j

/-- The graph after `set`'s write and transient dirty/clean marking of the
source (the state of the graph when affected-set discovery starts);
abbreviation used by the proofs below. -/
def gcOf (g : Graph) (i : NodeId) (v : Int) : Graph :=
  setState (setState (writeCell g i v) i .dirty) i .clean

/-- The graph on which the level-order loop of `set` starts: affected set
discovered and marked dirty; abbreviation used by the proofs below. -/
def gmOf (g : Graph) (i : NodeId) (v : Int) : Graph :=
  markDirty (gcOf g i v) (affected (gcOf g i v) i)

/-- Outcome of a propagation run halted by a computation failure,
relative to the graph `g` the run started from and the final graph `rg`:
the trace is the settled prefix `pre` (each of its nodes was dirty,
ends clean, was invoked exactly once and is consistent in the final
graph — not reverted) followed by the failing node `f`, which was dirty,
entered the Error state keeping its previous cached value and version,
was invoked once, and whose stored function indeed raises on the final
dependency values (unchanged since the failure); every node still dirty
at the end was never touched — the failure halted further processing. -/
def FailedPass (g rg : Graph) (evs : List Event) (pre : List NodeId)
    (f : NodeId) : Prop :=
  evs = pre.map (fun j => ⟨j, true⟩) ++ [⟨f, true⟩] ∧
  (∀ j ∈ pre, stateOf g j = NodeState.dirty) ∧
  (∀ j ∈ pre, stateOf rg j = NodeState.clean ∧
    callCountOf rg j = callCountOf g j + 1 ∧ Consistent rg j) ∧
  stateOf g f = NodeState.dirty ∧
  stateOf rg f = NodeState.error ∧
  valueOf rg f = valueOf g f ∧
  versionOf rg f = versionOf g f ∧
  callCountOf rg f = callCountOf g f + 1 ∧
  (∃ fn ds, kindOf rg f = NodeKind.computed fn ds ∧
    fn (ds.map (valueOf rg)) = none) ∧
  (∀ j, stateOf rg j = NodeState.dirty → rg.node j = g.node j)

/-- Modelled from the spec (diamond testable property): `a=var(1)`,
`b=calc(|| a.get()*2)`, `c=calc(|| a.get()*3)`, `d=calc(|| b.get()+c.get())`,
with ids a=0, b=1, c=2, d=3 and initial cached values computed from a=1. -/
def diamondG : Graph :=
  ⟨4, fun j =>
    match j with
    | 0 => var 1
    | 1 => calcNode 2 (fun vs => some (vs.getD 0 0 * 2)) [0]
    | 2 => calcNode 3 (fun vs => some (vs.getD 0 0 * 3)) [0]
    | _ => calcNode 5 (fun vs => some (vs.getD 0 0 + vs.getD 1 0)) [1, 2]⟩

/-- Modelled from the spec (cycle-rejection testable property): a source
s=0, a cycle p=1 (`calc(|| s.get() + q.get() + 1)`, deps [0,2]) and
q=2 (`calc(|| p.get() + 1)`, deps [1]), plus an independent dependent
r=3 (`calc(|| s.get()*2)`, deps [0]) that settles before the cycle is hit. -/
def cycleG : Graph :=
  ⟨4, fun j =>
    match j with
    | 0 => var 1
    | 1 => calcNode 0 (fun vs => some (vs.getD 0 0 + vs.getD 1 0 + 1)) [0, 2]
    | 2 => calcNode 0 (fun vs => some (vs.getD 0 0 + 1)) [1]
    | _ => calcNode 2 (fun vs => some (vs.getD 0 0 * 2)) [0]⟩

/-- Modelled from the spec (failure propagation policy): a chain
a=0 (source), b=1 (`calc(|| a.get()*2)`), c=2 (a computation that always
raises, deps [1]), e=3 (`calc(|| c.get()+1)`, deps [2]); recomputing c
fails, so a pass settles b, errors at c and never reaches e. -/
def failG : Graph :=
  ⟨4, fun j =>
    match j with
    | 0 => var 1
    | 1 => calcNode 2 (fun vs => some (vs.getD 0 0 * 2)) [0]
    | 2 => calcNode 7 (fun _ => none) [1]
    | _ => calcNode 8 (fun vs => some (vs.getD 0 0 + 1)) [2]⟩

/-- A one-node graph holding a dirty computed node whose function always
raises, to exercise the failure path of `get`. -/
def dirtyFailG : Graph :=
  ⟨1, fun _ =>
    { cell := ⟨42, 3⟩, kind := .computed (fun _ => none) [],
      state := .dirty, callCount := 0 }⟩

end Reaction

namespace Hdr

/-- C++ types as they appear in the headers: scalar/class types by name,
function(-object) types with a return type and parameter types,
`std::unique_ptr<T>` and `std::tuple<Ts...>` instantiations. -/
inductive CppType where
  | scalar (name : String) : CppType
  | fn (ret : CppType) (params : List CppType) : CppType
  | uniquePtr (pointee : CppType) : CppType
  | tuple (elems : List CppType) : CppType

/-- A declared data member: name and type. -/
structure FieldDecl where
  fname : String
  ftype : CppType

/-- The template `Resource` of `resource.h` takes exactly one type
parameter with no default, and its only data member is
`std::unique_ptr<Type> m_value`; an empty argument list (`Resource<>`,
the base written in `expression.h`'s primary template) is ill-formed and
yields no instantiation. -/
def resourceFields : List CppType → Option (List FieldDecl)
  | [t] => some [⟨"m_value", .uniquePtr t⟩]
  | _ => none

/-- Which `Expression` specialization an instantiation selects
(`expression.h`): one template argument matches the partial
specialization `Expression<Type> : Resource<Type>`; two or more match the
primary template `Expression<Fun, Args...> : Resource<>`. -/
inductive ExprInst where
  | primary (fun_ : CppType) (args : List CppType) : ExprInst
  | spec (type_ : CppType) : ExprInst

/-- Template-argument matching for `Expression` (an empty list is
ill-formed: the primary template requires at least the `Fun` argument). -/
def selectExpr : List CppType → Option ExprInst
  | [] => none
  | [t] => some (.spec t)
  | f :: a :: rest => some (.primary f (a :: rest))

/-- The data members declared by the selected `Expression` body itself:
the primary template stores the function object and a tuple of the
captured argument handles; the `Expression<Type>` specialization declares
none of its own. -/
def exprOwnFields : ExprInst → List FieldDecl
  | .primary f args => [⟨"m_fun", f⟩, ⟨"m_args", .tuple args⟩]
  | .spec _ => []

/-- The template-argument list each `Expression` body passes to its
`Resource` base: `Resource<>` for the primary template, `Resource<Type>`
for the specialization. -/
def exprBaseArgs : ExprInst → List CppType
  | .primary _ _ => []
  | .spec t => [t]

/-- `DataSource<T, Args...> : Expression<T, Args...>` (`dataSource.h`):
the template arguments are forwarded unchanged to `Expression`. -/
def dataSourceExpr (targs : List CppType) : Option ExprInst :=
  selectExpr targs

/-- The template-argument list of the `DataSource` returned by
`calc(Func&&, Args&&...)`: `DataSource<Func, Args...>` — the first
template parameter is the function type itself (`dataSource.h` 18–21). -/
def calcTemplateArgs (funcT : CppType) (argTs : List CppType) : List CppType :=
  funcT :: argTs

/-- The value-storage type of a `DataSource` instantiation: the pointee of
the `m_value` member of its `Resource` base, when that base is a valid
instantiation. -/
def valueTypeOf (targs : List CppType) : Option CppType :=
  match dataSourceExpr targs with
  | some (.spec t) => some t
  | some (.primary _ _) => none
  | none => none

/-- Model of `std::unique_ptr<T>` for ownership questions: null, or the
sole owner of an allocation identified by an id together with the pointee
value. -/
structure UniquePtr (α : Type) where
  owner : Option (Nat × α)

/-- Value-initialization of `std::unique_ptr`: null. -/
def UniquePtr.defaultCtor (α : Type) : UniquePtr α :=
  ⟨none⟩

/-- Dereference: only possible when non-null, so a read must handle the
empty case. -/
def UniquePtr.deref (p : UniquePtr α) : Option α :=
  p.owner.map Prod.snd

/-- Two owning pointers share storage when they own the same allocation. -/
def sharesStorage (p q : UniquePtr α) : Prop :=
  ∃ a x y, p.owner = some (a, x) ∧ q.owner = some (a, y)

/-- Object model of `Resource<T>` (`resource.h`): the single member
`m_value`.  `Resource` declares no constructors, so the only construction
is the implicit default constructor. -/
structure ResourceObj (α : Type) where
  m_value : UniquePtr α

/-- The implicit default constructor of `Resource<T>`:
default-initializes `m_value`, i.e. leaves it null. -/
def ResourceObj.defaultCtor (α : Type) : ResourceObj α :=
  ⟨UniquePtr.defaultCtor α⟩

/-- Object model of the `Expression<Type>` specialization: no own
members, a `Resource<Type>` base. -/
structure ExpressionSpecObj (α : Type) where
  base : ResourceObj α

/-- The implicit default constructor of `Expression<Type>` (no declared
constructors): default-constructs the base. -/
def ExpressionSpecObj.defaultCtor (α : Type) : ExpressionSpecObj α :=
  ⟨ResourceObj.defaultCtor α⟩

/-- Object model of `DataSource<T>` (single template argument, the shape
produced by `var`): an `Expression<T>` base and no own members. -/
structure DataSourceObj (α : Type) where
  base : ExpressionSpecObj α

/-- The implicit default constructor of `DataSource<T>` — the class
declares no constructors (in particular none taking an initial value). -/
def DataSourceObj.defaultCtor (α : Type) : DataSourceObj α :=
  ⟨ExpressionSpecObj.defaultCtor α⟩

/-- Structural depth along the return-type spine; used to show a function
type is never equal to its own return type. -/
def CppType.retDepth : CppType → Nat
  | .scalar _ => 0
  | .fn r _ => r.retDepth + 1
  | .uniquePtr t => t.retDepth + 1
  | .tuple _ => 0


end Hdr

namespace Reaction

theorem upd_size (g : Graph) (j : NodeId) (f : Node → Node) :
    (g.upd j f).size = g.size := rfl

theorem upd_node_self (g : Graph) (j : NodeId) (f : Node → Node) :
    (g.upd j f).node j = f (g.node j) := by
  simp [Graph.upd]

theorem upd_node_ne (g : Graph) (j k : NodeId) (f : Node → Node) (hk : k ≠ j) :
    (g.upd j f).node k = g.node k := by
  simp [Graph.upd, hk]

theorem stateOf_lt (g : Graph) (j : NodeId) (h : j < g.size) :
    stateOf g j = (g.node j).state := if_pos h

theorem stateOf_ge (g : Graph) (j : NodeId) (h : g.size ≤ j) :
    stateOf g j = NodeState.clean := if_neg (Nat.not_lt.mpr h)

theorem lt_size_of_dirty (g : Graph) (j : NodeId)
    (h : stateOf g j = NodeState.dirty) : j < g.size := by
  by_contra hn
  rw [stateOf, if_neg hn] at h
  cases h

theorem lt_size_of_computed (g : Graph) (j : NodeId) (fn : List Int → Option Int)
    (ds : List NodeId) (h : kindOf g j = NodeKind.computed fn ds) : j < g.size := by
  by_contra hn
  rw [kindOf, if_neg hn] at h
  cases h

theorem depsOf_of_computed (g : Graph) (j : NodeId) (fn : List Int → Option Int)
    (ds : List NodeId) (h : kindOf g j = NodeKind.computed fn ds) :
    depsOf g j = ds := by
  rw [depsOf, h]

theorem computed_of_deps_mem (g : Graph) (j d : NodeId) (h : d ∈ depsOf g j) :
    ∃ fn ds, kindOf g j = NodeKind.computed fn ds := by
  rw [depsOf] at h
  rcases hk : kindOf g j with _ | ⟨fn, ds⟩
  · rw [hk] at h; cases h
  · exact ⟨fn, ds, rfl⟩

theorem node_eq_obs (g h : Graph) (j : NodeId) (hs : g.size = h.size)
    (hn : g.node j = h.node j) :
    stateOf g j = stateOf h j ∧ valueOf g j = valueOf h j ∧
    versionOf g j = versionOf h j ∧ callCountOf g j = callCountOf h j ∧
    kindOf g j = kindOf h j := by
  simp [stateOf, valueOf, versionOf, callCountOf, kindOf, hs, hn]

theorem SameShape.refl (g : Graph) : SameShape g g := ⟨rfl, fun _ => rfl⟩

theorem SameShape.trans {g h k : Graph} (h1 : SameShape g h) (h2 : SameShape h k) :
    SameShape g k :=
  ⟨h1.1.trans h2.1, fun j => (h1.2 j).trans (h2.2 j)⟩

theorem SameShape.deps {g h : Graph} (hs : SameShape g h) (j : NodeId) :
    depsOf g j = depsOf h j := by
  rw [depsOf, depsOf, hs.2 j]

theorem SameShape.dependents {g h : Graph} (hs : SameShape g h) (i : NodeId) :
    dependentsOf g i = dependentsOf h i := by
  rw [dependentsOf, dependentsOf, hs.1]
  exact List.filter_congr fun j _ => by rw [hs.deps j]

theorem SameShape.stepA {g h : Graph} (hs : SameShape g h) (s : List NodeId) :
    stepAffected g s = stepAffected h s := by
  rw [stepAffected, stepAffected, hs.1]
  exact List.filter_congr fun j _ => by rw [hs.deps j]

theorem SameShape.affectedAux {g h : Graph} (hs : SameShape g h) (k : Nat)
    (s : List NodeId) : affectedAux g k s = affectedAux h k s := by
  induction k generalizing s with
  | zero => rfl
  | succ k ih =>
    show Reaction.affectedAux g k (stepAffected g s) =
      Reaction.affectedAux h k (stepAffected h s)
    rw [hs.stepA s, ih]

theorem SameShape.affectedEq {g h : Graph} (hs : SameShape g h) (i : NodeId) :
    affected g i = affected h i := by
  rw [affected, affected, hs.1, hs.dependents i, hs.affectedAux]

theorem SameShape.reaches {g h : Graph} (hs : SameShape g h) (i j : NodeId)
    (hr : Reaches g i j) : Reaches h i j := by
  induction hr with
  | direct j hj hlt => exact .direct j (hs.deps j ▸ hj) (hs.1 ▸ hlt)
  | step j k hr hj hlt ih => exact .step j k ih (hs.deps k ▸ hj) (hs.1 ▸ hlt)

theorem SameShape.acyclic {g h : Graph} (hs : SameShape g h) (ha : Acyclic g) :
    Acyclic h := by
  obtain ⟨rank, hr⟩ := ha
  exact ⟨rank, fun j hj d hd => hr j (hs.1 ▸ hj) d ((hs.deps j).symm ▸ hd)⟩

theorem SameShape.fn_at {g h : Graph} (hs : SameShape g h) (j : NodeId) :
    fnAt g j = fnAt h j := by
  rw [fnAt, fnAt, hs.2 j]

theorem SameShape.total {g h : Graph} (hs : SameShape g h) (ht : TotalFns g) :
    TotalFns h := by
  intro j hj vals
  rw [← hs.fn_at j]
  exact ht j (hs.1 ▸ hj) vals

theorem kindOf_upd (g : Graph) (j k : NodeId) (f : Node → Node)
    (hf : ∀ n, (f n).kind = n.kind) : kindOf (g.upd j f) k = kindOf g k := by
  by_cases hk : k = j
  · subst hk
    rw [kindOf, kindOf, upd_size]
    by_cases h : k < g.size
    · rw [if_pos h, if_pos h, upd_node_self, hf]
    · rw [if_neg h, if_neg h]
  · rw [kindOf, kindOf, upd_size, upd_node_ne g j k f hk]

theorem sameShape_upd (g : Graph) (j : NodeId) (f : Node → Node)
    (hf : ∀ n, (f n).kind = n.kind) : SameShape g (g.upd j f) :=
  ⟨rfl, fun k => (kindOf_upd g j k f hf).symm⟩

theorem markDirty_size (g : Graph) (l : List NodeId) :
    (markDirty g l).size = g.size := rfl

theorem markDirty_node_mem (g : Graph) (l : List NodeId) (k : NodeId) (h : k ∈ l) :
    (markDirty g l).node k = { g.node k with state := .dirty } := by
  simp [markDirty, h]

theorem markDirty_node_not_mem (g : Graph) (l : List NodeId) (k : NodeId)
    (h : k ∉ l) : (markDirty g l).node k = g.node k := by
  simp [markDirty, h]

theorem sameShape_markDirty (g : Graph) (l : List NodeId) :
    SameShape g (markDirty g l) := by
  refine ⟨rfl, fun k => ?_⟩
  rw [kindOf, kindOf, markDirty_size]
  by_cases hk : k < g.size
  · rw [if_pos hk, if_pos hk]
    by_cases hm : k ∈ l
    · rw [markDirty_node_mem g l k hm]
    · rw [markDirty_node_not_mem g l k hm]
  · rw [if_neg hk, if_neg hk]

theorem stateOf_markDirty_mem (g : Graph) (l : List NodeId) (k : NodeId)
    (h : k ∈ l) (hk : k < g.size) :
    stateOf (markDirty g l) k = NodeState.dirty := by
  rw [stateOf, markDirty_size, if_pos hk, markDirty_node_mem g l k h]

theorem stateOf_markDirty_not_mem (g : Graph) (l : List NodeId) (k : NodeId)
    (h : k ∉ l) : stateOf (markDirty g l) k = stateOf g k := by
  rw [stateOf, stateOf, markDirty_size]
  by_cases hk : k < g.size
  · rw [if_pos hk, if_pos hk, markDirty_node_not_mem g l k h]
  · rw [if_neg hk, if_neg hk]

theorem valueOf_markDirty (g : Graph) (l : List NodeId) (k : NodeId) :
    valueOf (markDirty g l) k = valueOf g k := by
  rw [valueOf, valueOf, markDirty_size]
  by_cases hk : k < g.size
  · rw [if_pos hk, if_pos hk]
    by_cases hm : k ∈ l
    · rw [markDirty_node_mem g l k hm]
    · rw [markDirty_node_not_mem g l k hm]
  · rw [if_neg hk, if_neg hk]

theorem versionOf_markDirty (g : Graph) (l : List NodeId) (k : NodeId) :
    versionOf (markDirty g l) k = versionOf g k := by
  rw [versionOf, versionOf, markDirty_size]
  by_cases hk : k < g.size
  · rw [if_pos hk, if_pos hk]
    by_cases hm : k ∈ l
    · rw [markDirty_node_mem g l k hm]
    · rw [markDirty_node_not_mem g l k hm]
  · rw [if_neg hk, if_neg hk]

theorem callCountOf_markDirty (g : Graph) (l : List NodeId) (k : NodeId) :
    callCountOf (markDirty g l) k = callCountOf g k := by
  rw [callCountOf, callCountOf, markDirty_size]
  by_cases hk : k < g.size
  · rw [if_pos hk, if_pos hk]
    by_cases hm : k ∈ l
    · rw [markDirty_node_mem g l k hm]
    · rw [markDirty_node_not_mem g l k hm]
  · rw [if_neg hk, if_neg hk]

theorem mem_dependentsOf (g : Graph) (i j : NodeId) :
    j ∈ dependentsOf g i ↔ j < g.size ∧ i ∈ depsOf g j := by
  simp [dependentsOf, List.mem_filter, List.mem_range]

theorem mem_stepAffected (g : Graph) (s : List NodeId) (j : NodeId) :
    j ∈ stepAffected g s ↔ j < g.size ∧ (j ∈ s ∨ ∃ d ∈ depsOf g j, d ∈ s) := by
  simp [stepAffected, List.mem_filter, List.mem_range, List.any_eq_true]

theorem dependentsOf_nodup (g : Graph) (i : NodeId) :
    (dependentsOf g i).Nodup :=
  (List.nodup_range g.size).filter _

theorem dependentsOf_lt (g : Graph) (i : NodeId) :
    ∀ j ∈ dependentsOf g i, j < g.size := fun j hj =>
  ((mem_dependentsOf g i j).mp hj).1

theorem stepAffected_nodup (g : Graph) (s : List NodeId) :
    (stepAffected g s).Nodup :=
  (List.nodup_range g.size).filter _

theorem stepAffected_lt (g : Graph) (s : List NodeId) :
    ∀ j ∈ stepAffected g s, j < g.size := fun j hj =>
  ((mem_stepAffected g s j).mp hj).1

theorem subset_stepAffected (g : Graph) (s : List NodeId)
    (hs : ∀ x ∈ s, x < g.size) : ∀ x ∈ s, x ∈ stepAffected g s := fun x hx =>
  (mem_stepAffected g s x).mpr ⟨hs x hx, Or.inl hx⟩

theorem affectedAux_lt (g : Graph) (k : Nat) (s : List NodeId)
    (hs : ∀ x ∈ s, x < g.size) : ∀ x ∈ affectedAux g k s, x < g.size := by
  induction k generalizing s with
  | zero => exact hs
  | succ k ih => exact ih (stepAffected g s) (stepAffected_lt g s)

theorem affectedAux_nodup (g : Graph) (k : Nat) (s : List NodeId)
    (hn : s.Nodup) : (affectedAux g k s).Nodup := by
  induction k generalizing s with
  | zero => exact hn
  | succ k ih => exact ih (stepAffected g s) (stepAffected_nodup g s)

theorem mem_affectedAux_of_mem (g : Graph) (k : Nat) (s : List NodeId)
    (hs : ∀ x ∈ s, x < g.size) : ∀ x ∈ s, x ∈ affectedAux g k s := by
  induction k generalizing s with
  | zero => exact fun x hx => hx
  | succ k ih =>
    intro x hx
    exact ih (stepAffected g s) (stepAffected_lt g s) x
      (subset_stepAffected g s hs x hx)

theorem affectedAux_comm (g : Graph) (k : Nat) (s : List NodeId) :
    affectedAux g k (stepAffected g s) = stepAffected g (affectedAux g k s) := by
  induction k generalizing s with
  | zero => rfl
  | succ k ih =>
    show affectedAux g k (stepAffected g (stepAffected g s)) =
      stepAffected g (affectedAux g k (stepAffected g s))
    rw [ih (stepAffected g s)]

theorem stepAffected_equiv (g : Graph) (s t : List NodeId)
    (h : ∀ x, x ∈ s ↔ x ∈ t) (j : NodeId) :
    j ∈ stepAffected g s ↔ j ∈ stepAffected g t := by
  have h2 : ∀ d : NodeId, (d ∈ s) = (d ∈ t) := fun d => propext (h d)
  rw [mem_stepAffected, mem_stepAffected]
  simp [h2]

theorem length_lt_of_proper (l₁ l₂ : List NodeId) (hn : l₁.Nodup)
    (hsub : l₁ ⊆ l₂) (x : NodeId) (hx : x ∈ l₂) (hnx : x ∉ l₁) :
    l₁.length < l₂.length := by
  have hsub2 : (x :: l₁) ⊆ l₂ := by
    intro y hy
    rcases List.mem_cons.mp hy with hy | hy
    · exact hy ▸ hx
    · exact hsub hy
  have hnd : (x :: l₁).Nodup := List.nodup_cons.mpr ⟨hnx, hn⟩
  have hle := (List.subperm_of_subset hnd hsub2).length_le
  simp only [List.length_cons] at hle
  omega

theorem length_le_size (g : Graph) (l : List NodeId) (hn : l.Nodup)
    (hs : ∀ x ∈ l, x < g.size) : l.length ≤ g.size := by
  have hsub : l ⊆ List.range g.size := fun x hx => List.mem_range.mpr (hs x hx)
  have := (List.subperm_of_subset hn hsub).length_le
  simpa using this

theorem exists_stable_iter (g : Graph) (s : List NodeId) (hn : s.Nodup)
    (hs : ∀ x ∈ s, x < g.size) :
    ∃ k ≤ g.size, ∀ x, x ∈ affectedAux g (k + 1) s ↔ x ∈ affectedAux g k s := by
  by_contra hc
  push_neg at hc
  have hgrow : ∀ k ≤ g.size + 1, k ≤ (affectedAux g k s).length := by
    intro k
    induction k with
    | zero => omega
    | succ k ih =>
      intro hk1
      have hk : k ≤ g.size := by omega
      have hlen := ih (by omega)
      have hsubk : affectedAux g k s ⊆ affectedAux g (k + 1) s := by
        intro y hy
        have hy2 : y ∈ stepAffected g (affectedAux g k s) :=
          subset_stepAffected g _ (affectedAux_lt g k s hs) y hy
        rw [← affectedAux_comm] at hy2
        exact hy2
      obtain ⟨x, hx⟩ := hc k hk
      obtain ⟨hx1, hx2⟩ : x ∈ affectedAux g (k + 1) s ∧ x ∉ affectedAux g k s := by
        rcases hx with h | h
        · exact h
        · exact absurd (hsubk h.2) h.1
      have := length_lt_of_proper (affectedAux g k s) (affectedAux g (k + 1) s)
        (affectedAux_nodup g k s hn) hsubk x hx1 hx2
      omega
  have h1 := hgrow (g.size + 1) (le_refl _)
  have h2 := length_le_size g (affectedAux g (g.size + 1) s)
    (affectedAux_nodup g _ s hn) (affectedAux_lt g _ s hs)
  omega

theorem step_affected_self (g : Graph) (i : NodeId) (x : NodeId) :
    x ∈ stepAffected g (affected g i) ↔ x ∈ affected g i := by
  obtain ⟨k, hk, hstable⟩ := exists_stable_iter g (dependentsOf g i)
    (dependentsOf_nodup g i) (dependentsOf_lt g i)
  have hiter : ∀ m, k ≤ m → ∀ y, y ∈ affectedAux g m (dependentsOf g i) ↔
      y ∈ affectedAux g k (dependentsOf g i) := by
    intro m
    induction m with
    | zero => intro hm y; rw [Nat.le_zero.mp hm]
    | succ m ih =>
      intro hm y
      rcases Nat.lt_or_ge k (m + 1) with hlt | hge
      · have hkm : k ≤ m := by omega
        have hcomm : affectedAux g (m + 1) (dependentsOf g i) =
            stepAffected g (affectedAux g m (dependentsOf g i)) := by
          show affectedAux g m (stepAffected g (dependentsOf g i)) =
            stepAffected g (affectedAux g m (dependentsOf g i))
          exact affectedAux_comm g m (dependentsOf g i)
        rw [hcomm]
        have h1 := stepAffected_equiv g (affectedAux g m (dependentsOf g i))
          (affectedAux g k (dependentsOf g i)) (ih hkm) y
        rw [h1]
        have hcomm2 : stepAffected g (affectedAux g k (dependentsOf g i)) =
            affectedAux g (k + 1) (dependentsOf g i) := by
          show stepAffected g (affectedAux g k (dependentsOf g i)) =
            affectedAux g k (stepAffected g (dependentsOf g i))
          exact (affectedAux_comm g k (dependentsOf g i)).symm
        rw [hcomm2]
        exact hstable y
      · have : k = m + 1 := by omega
        rw [this]
  have haff : ∀ y, y ∈ affected g i ↔ y ∈ affectedAux g k (dependentsOf g i) := by
    intro y
    exact hiter g.size hk y
  have hstep : x ∈ stepAffected g (affected g i) ↔
      x ∈ stepAffected g (affectedAux g k (dependentsOf g i)) :=
    stepAffected_equiv g _ _ haff x
  rw [hstep]
  have hcomm2 : stepAffected g (affectedAux g k (dependentsOf g i)) =
      affectedAux g (k + 1) (dependentsOf g i) :=
    (affectedAux_comm g k (dependentsOf g i)).symm
  rw [hcomm2, hstable x, ← haff x]

theorem affected_lt (g : Graph) (i : NodeId) :
    ∀ j ∈ affected g i, j < g.size :=
  affectedAux_lt g g.size (dependentsOf g i) (dependentsOf_lt g i)

theorem affected_nodup (g : Graph) (i : NodeId) : (affected g i).Nodup :=
  affectedAux_nodup g g.size (dependentsOf g i) (dependentsOf_nodup g i)

theorem dependentsOf_subset_affected (g : Graph) (i : NodeId) :
    ∀ j ∈ dependentsOf g i, j ∈ affected g i :=
  mem_affectedAux_of_mem g g.size (dependentsOf g i) (dependentsOf_lt g i)

theorem affected_closed (g : Graph) (i j k : NodeId) (hj : j ∈ affected g i)
    (hd : j ∈ depsOf g k) (hk : k < g.size) : k ∈ affected g i := by
  rw [← step_affected_self g i k]
  exact (mem_stepAffected g (affected g i) k).mpr ⟨hk, Or.inr ⟨j, hd, hj⟩⟩

theorem reaches_of_mem_affected (g : Graph) (i j : NodeId)
    (h : j ∈ affected g i) : Reaches g i j := by
  have main : ∀ k s, (∀ x ∈ s, Reaches g i x) →
      ∀ x ∈ affectedAux g k s, Reaches g i x := by
    intro k
    induction k with
    | zero => exact fun s hs => hs
    | succ k ih =>
      intro s hs
      refine ih (stepAffected g s) ?_
      intro x hx
      obtain ⟨hlt, hcase⟩ := (mem_stepAffected g s x).mp hx
      rcases hcase with hx2 | ⟨d, hd, hds⟩
      · exact hs x hx2
      · exact .step d x (hs d hds) hd hlt
  refine main g.size (dependentsOf g i) ?_ j h
  intro x hx
  obtain ⟨hlt, hdep⟩ := (mem_dependentsOf g i x).mp hx
  exact .direct x hdep hlt

theorem mem_affected_of_reaches (g : Graph) (i j : NodeId)
    (h : Reaches g i j) : j ∈ affected g i := by
  induction h with
  | direct j hj hlt =>
    exact dependentsOf_subset_affected g i j ((mem_dependentsOf g i j).mpr ⟨hlt, hj⟩)
  | step j k hr hj hlt ih => exact affected_closed g i j k ih hj hlt

theorem mem_affected_iff_reaches (g : Graph) (i j : NodeId) :
    j ∈ affected g i ↔ Reaches g i j :=
  ⟨reaches_of_mem_affected g i j, mem_affected_of_reaches g i j⟩

theorem reaches_computed (g : Graph) (i j : NodeId) (h : Reaches g i j) :
    ∃ fn ds, kindOf g j = NodeKind.computed fn ds := by
  cases h with
  | direct j hj hlt => exact computed_of_deps_mem g j i hj
  | step jj j hr hj hlt => exact computed_of_deps_mem g j jj hj

theorem source_not_reached (g : Graph) (i : NodeId)
    (hs : kindOf g i = NodeKind.source) : ¬ Reaches g i i := by
  intro h
  obtain ⟨fn, ds, hk⟩ := reaches_computed g i i h
  rw [hs] at hk
  cases hk

theorem stateOf_upd_ne (g : Graph) (j k : NodeId) (f : Node → Node) (hk : k ≠ j) :
    stateOf (g.upd j f) k = stateOf g k :=
  (node_eq_obs (g.upd j f) g k rfl (upd_node_ne g j k f hk)).1

theorem valueOf_upd_ne (g : Graph) (j k : NodeId) (f : Node → Node) (hk : k ≠ j) :
    valueOf (g.upd j f) k = valueOf g k :=
  (node_eq_obs (g.upd j f) g k rfl (upd_node_ne g j k f hk)).2.1

theorem setState_size (g : Graph) (j : NodeId) (s : NodeState) :
    (setState g j s).size = g.size := rfl

theorem stateOf_setState_self (g : Graph) (j : NodeId) (s : NodeState)
    (hj : j < g.size) : stateOf (setState g j s) j = s := by
  rw [setState, stateOf, upd_size, if_pos hj, upd_node_self]

theorem stateOf_setState_ne (g : Graph) (j k : NodeId) (s : NodeState)
    (hk : k ≠ j) : stateOf (setState g j s) k = stateOf g k :=
  stateOf_upd_ne g j k _ hk

theorem node_setState_ne (g : Graph) (j k : NodeId) (s : NodeState) (hk : k ≠ j) :
    (setState g j s).node k = g.node k :=
  upd_node_ne g j k _ hk

theorem valueOf_setState (g : Graph) (j k : NodeId) (s : NodeState) :
    valueOf (setState g j s) k = valueOf g k := by
  by_cases hk : k = j
  · subst hk
    rw [valueOf, valueOf, setState_size]
    by_cases h : k < g.size
    · rw [if_pos h, if_pos h, setState, upd_node_self]
    · rw [if_neg h, if_neg h]
  · exact valueOf_upd_ne g j k _ hk

theorem versionOf_setState (g : Graph) (j k : NodeId) (s : NodeState) :
    versionOf (setState g j s) k = versionOf g k := by
  by_cases hk : k = j
  · subst hk
    rw [versionOf, versionOf, setState_size]
    by_cases h : k < g.size
    · rw [if_pos h, if_pos h, setState, upd_node_self]
    · rw [if_neg h, if_neg h]
  · exact (node_eq_obs (setState g j s) g k rfl (node_setState_ne g j k s hk)).2.2.1

theorem callCountOf_setState (g : Graph) (j k : NodeId) (s : NodeState) :
    callCountOf (setState g j s) k = callCountOf g k := by
  by_cases hk : k = j
  · subst hk
    rw [callCountOf, callCountOf, setState_size]
    by_cases h : k < g.size
    · rw [if_pos h, if_pos h, setState, upd_node_self]
    · rw [if_neg h, if_neg h]
  · exact (node_eq_obs (setState g j s) g k rfl (node_setState_ne g j k s hk)).2.2.2.1

theorem sameShape_setState (g : Graph) (j : NodeId) (s : NodeState) :
    SameShape g (setState g j s) :=
  sameShape_upd g j _ fun _ => rfl

theorem writeCell_size (g : Graph) (j : NodeId) (v : Int) :
    (writeCell g j v).size = g.size := rfl

theorem valueOf_writeCell_self (g : Graph) (j : NodeId) (v : Int)
    (hj : j < g.size) : valueOf (writeCell g j v) j = v := by
  rw [writeCell, valueOf, upd_size, if_pos hj, upd_node_self]
  rfl

theorem versionOf_writeCell_self (g : Graph) (j : NodeId) (v : Int)
    (hj : j < g.size) : versionOf (writeCell g j v) j = versionOf g j + 1 := by
  rw [writeCell, versionOf, upd_size, if_pos hj, upd_node_self, versionOf, if_pos hj]
  rfl

theorem node_writeCell_ne (g : Graph) (j k : NodeId) (v : Int) (hk : k ≠ j) :
    (writeCell g j v).node k = g.node k :=
  upd_node_ne g j k _ hk

theorem stateOf_writeCell (g : Graph) (j k : NodeId) (v : Int) :
    stateOf (writeCell g j v) k = stateOf g k := by
  by_cases hk : k = j
  · subst hk
    rw [stateOf, stateOf, writeCell_size]
    by_cases h : k < g.size
    · rw [if_pos h, if_pos h, writeCell, upd_node_self]
    · rw [if_neg h, if_neg h]
  · exact stateOf_upd_ne g j k _ hk

theorem callCountOf_writeCell (g : Graph) (j k : NodeId) (v : Int) :
    callCountOf (writeCell g j v) k = callCountOf g k := by
  by_cases hk : k = j
  · subst hk
    rw [callCountOf, callCountOf, writeCell_size]
    by_cases h : k < g.size
    · rw [if_pos h, if_pos h, writeCell, upd_node_self]
    · rw [if_neg h, if_neg h]
  · exact (node_eq_obs (writeCell g j v) g k rfl (node_writeCell_ne g j k v hk)).2.2.2.1

theorem sameShape_writeCell (g : Graph) (j : NodeId) (v : Int) :
    SameShape g (writeCell g j v) :=
  sameShape_upd g j _ fun _ => rfl

theorem mem_dirtyIds (g : Graph) (j : NodeId) :
    j ∈ dirtyIds g ↔ stateOf g j = NodeState.dirty := by
  simp only [dirtyIds, List.mem_filter, List.mem_range, decide_eq_true_eq]
  exact ⟨fun h => h.2, fun h => ⟨lt_size_of_dirty g j h, h⟩⟩

theorem allDepsSettled_iff (g : Graph) (j : NodeId) :
    allDepsSettled g j = true ↔
      ∀ d ∈ depsOf g j, stateOf g d ≠ NodeState.dirty := by
  simp [allDepsSettled, List.all_eq_true]

theorem mem_readyIds (g : Graph) (j : NodeId) :
    j ∈ readyIds g ↔ stateOf g j = NodeState.dirty ∧
      ∀ d ∈ depsOf g j, stateOf g d ≠ NodeState.dirty := by
  simp only [readyIds, List.mem_filter, List.mem_range, Bool.and_eq_true,
    decide_eq_true_eq, allDepsSettled_iff]
  exact ⟨fun h => h.2, fun h => ⟨lt_size_of_dirty g j h.1, h⟩⟩

theorem readyIds_nodup (g : Graph) : (readyIds g).Nodup :=
  (List.nodup_range g.size).filter _

theorem dirtyIds_nodup (g : Graph) : (dirtyIds g).Nodup :=
  (List.nodup_range g.size).filter _

theorem recomputeOne_source (g : Graph) (j : NodeId)
    (h : kindOf g j = NodeKind.source) : recomputeOne g j = (g, true) := by
  rw [recomputeOne, h]

theorem recomputeOne_some (g : Graph) (j : NodeId) (fn : List Int → Option Int)
    (ds : List NodeId) (v : Int) (hk : kindOf g j = NodeKind.computed fn ds)
    (hv : fn (ds.map (valueOf g)) = some v) :
    recomputeOne g j =
      (g.upd j fun n =>
        { cell := (n.cell.write v).1, kind := n.kind, state := .clean,
          callCount := n.callCount + 1 }, true) := by
  rw [recomputeOne, hk]
  simp only [hv]

theorem recomputeOne_none (g : Graph) (j : NodeId) (fn : List Int → Option Int)
    (ds : List NodeId) (hk : kindOf g j = NodeKind.computed fn ds)
    (hv : fn (ds.map (valueOf g)) = none) :
    recomputeOne g j =
      (g.upd j fun n =>
        { cell := n.cell, kind := n.kind, state := .error,
          callCount := n.callCount + 1 }, false) := by
  rw [recomputeOne, hk]
  simp only [hv]

theorem recomputeOne_node_ne (g : Graph) (j k : NodeId) (hk : k ≠ j) :
    (recomputeOne g j).1.node k = g.node k := by
  rcases hkind : kindOf g j with _ | ⟨fn, ds⟩
  · rw [recomputeOne_source g j hkind]
  · rcases hv : fn (ds.map (valueOf g)) with _ | v
    · rw [recomputeOne_none g j fn ds hkind hv]
      exact upd_node_ne g j k
        (fun n =>
          { cell := n.cell, kind := n.kind, state := NodeState.error,
            callCount := n.callCount + 1 }) hk
    · rw [recomputeOne_some g j fn ds v hkind hv]
      exact upd_node_ne g j k
        (fun n =>
          { cell := (n.cell.write v).1, kind := n.kind,
            state := NodeState.clean, callCount := n.callCount + 1 }) hk

theorem recomputeOne_size (g : Graph) (j : NodeId) :
    (recomputeOne g j).1.size = g.size := by
  rcases hkind : kindOf g j with _ | ⟨fn, ds⟩
  · rw [recomputeOne_source g j hkind]
  · rcases hv : fn (ds.map (valueOf g)) with _ | v
    · rw [recomputeOne_none g j fn ds hkind hv]; rfl
    · rw [recomputeOne_some g j fn ds v hkind hv]; rfl

theorem sameShape_recomputeOne (g : Graph) (j : NodeId) :
    SameShape g (recomputeOne g j).1 := by
  rcases hkind : kindOf g j with _ | ⟨fn, ds⟩
  · rw [recomputeOne_source g j hkind]
    exact SameShape.refl g
  · rcases hv : fn (ds.map (valueOf g)) with _ | v
    · rw [recomputeOne_none g j fn ds hkind hv]
      exact sameShape_upd g j _ fun _ => rfl
    · rw [recomputeOne_some g j fn ds v hkind hv]
      exact sameShape_upd g j _ fun _ => rfl

theorem recomputeOne_some_obs (g : Graph) (j : NodeId) (fn : List Int → Option Int)
    (ds : List NodeId) (v : Int) (hk : kindOf g j = NodeKind.computed fn ds)
    (hv : fn (ds.map (valueOf g)) = some v) :
    stateOf (recomputeOne g j).1 j = NodeState.clean ∧
    valueOf (recomputeOne g j).1 j = v ∧
    versionOf (recomputeOne g j).1 j = versionOf g j + 1 ∧
    callCountOf (recomputeOne g j).1 j = callCountOf g j + 1 ∧
    (recomputeOne g j).2 = true := by
  have hj := lt_size_of_computed g j fn ds hk
  rw [recomputeOne_some g j fn ds v hk hv]
  refine ⟨?_, ?_, ?_, ?_, rfl⟩
  · rw [stateOf, upd_size, if_pos hj, upd_node_self]
  · rw [valueOf, upd_size, if_pos hj, upd_node_self]
    rfl
  · rw [versionOf, upd_size, if_pos hj, upd_node_self, versionOf, if_pos hj]
    rfl
  · rw [callCountOf, upd_size, if_pos hj, upd_node_self, callCountOf, if_pos hj]

theorem recomputeOne_none_obs (g : Graph) (j : NodeId) (fn : List Int → Option Int)
    (ds : List NodeId) (hk : kindOf g j = NodeKind.computed fn ds)
    (hv : fn (ds.map (valueOf g)) = none) :
    stateOf (recomputeOne g j).1 j = NodeState.error ∧
    valueOf (recomputeOne g j).1 j = valueOf g j ∧
    versionOf (recomputeOne g j).1 j = versionOf g j ∧
    callCountOf (recomputeOne g j).1 j = callCountOf g j + 1 ∧
    (recomputeOne g j).2 = false := by
  have hj := lt_size_of_computed g j fn ds hk
  rw [recomputeOne_none g j fn ds hk hv]
  refine ⟨?_, ?_, ?_, ?_, rfl⟩
  · rw [stateOf, upd_size, if_pos hj, upd_node_self]
  · rw [valueOf, upd_size, if_pos hj, upd_node_self, valueOf, if_pos hj]
  · rw [versionOf, upd_size, if_pos hj, upd_node_self, versionOf, if_pos hj]
  · rw [callCountOf, upd_size, if_pos hj, upd_node_self, callCountOf, if_pos hj]

theorem recomputeOne_true_of_total (g : Graph) (j : NodeId) (ht : TotalFns g) :
    (recomputeOne g j).2 = true := by
  rcases hkind : kindOf g j with _ | ⟨fn, ds⟩
  · rw [recomputeOne_source g j hkind]
  · have hj := lt_size_of_computed g j fn ds hkind
    have hs := ht j hj (ds.map (valueOf g))
    have hfn : fnAt g j = fn := by rw [fnAt, hkind]
    rw [hfn] at hs
    rcases ho : fn (ds.map (valueOf g)) with _ | v
    · rw [ho] at hs
      cases hs
    · exact ((recomputeOne_some_obs g j fn ds v hkind ho).2.2.2.2)

theorem runReady_cons (g : Graph) (j : NodeId) (rest : List NodeId) :
    runReady g (j :: rest) =
      (if (recomputeOne g j).2 = true then
        ⟨(runReady (recomputeOne g j).1 rest).g,
         ⟨j, allDepsSettled g j⟩ :: (runReady (recomputeOne g j).1 rest).events,
         (runReady (recomputeOne g j).1 rest).err⟩
      else
        ⟨(recomputeOne g j).1, [⟨j, allDepsSettled g j⟩],
         some .computationFailure⟩ : PropResult) := by
  rcases hp : recomputeOne g j with ⟨g1, b⟩
  rw [runReady, hp]
  cases b
  · rfl
  · rfl

theorem runReady_total (g : Graph) (l : List NodeId) (hn : l.Nodup)
    (hdirty : ∀ j ∈ l, stateOf g j = NodeState.dirty)
    (hready : ∀ j ∈ l, ∀ d ∈ depsOf g j, stateOf g d ≠ NodeState.dirty)
    (hcomp : ∀ j ∈ l, ∃ fn ds, kindOf g j = NodeKind.computed fn ds)
    (ht : TotalFns g) :
    (runReady g l).err = none ∧
    (runReady g l).events = l.map (fun j => ⟨j, true⟩) ∧
    (∀ k, k ∉ l → (runReady g l).g.node k = g.node k) ∧
    SameShape g (runReady g l).g ∧
    (∀ j ∈ l, stateOf (runReady g l).g j = NodeState.clean ∧
      callCountOf (runReady g l).g j = callCountOf g j + 1 ∧
      versionOf (runReady g l).g j = versionOf g j + 1) ∧
    (∀ j ∈ l, ∀ fn ds, kindOf g j = NodeKind.computed fn ds →
      fn (ds.map (valueOf g)) = some (valueOf (runReady g l).g j)) := by
  induction l generalizing g with
  | nil =>
    refine ⟨rfl, rfl, fun k _ => rfl, SameShape.refl g, ?_, ?_⟩ <;>
      intro j hj <;> cases hj
  | cons j rest ih =>
    obtain ⟨fn, ds, hk⟩ := hcomp j (List.mem_cons_self j rest)
    have hj := lt_size_of_computed g j fn ds hk
    have hs := ht j hj (ds.map (valueOf g))
    have hfn : fnAt g j = fn := by rw [fnAt, hk]
    rw [hfn] at hs
    rcases ho : fn (ds.map (valueOf g)) with _ | v
    · rw [ho] at hs
      cases hs
    have hobs := recomputeOne_some_obs g j fn ds v hk ho
    have hsettled : allDepsSettled g j = true :=
      (allDepsSettled_iff g j).mpr (hready j (List.mem_cons_self j rest))
    have hunfold := runReady_cons g j rest
    rw [if_pos hobs.2.2.2.2] at hunfold
    have hshape1 : SameShape g (recomputeOne g j).1 := sameShape_recomputeOne g j
    have hnodeeq : ∀ k, k ≠ j → (recomputeOne g j).1.node k = g.node k :=
      fun k hkj => recomputeOne_node_ne g j k hkj
    have hobs_ne : ∀ k, k ≠ j →
        stateOf (recomputeOne g j).1 k = stateOf g k ∧
        valueOf (recomputeOne g j).1 k = valueOf g k ∧
        versionOf (recomputeOne g j).1 k = versionOf g k ∧
        callCountOf (recomputeOne g j).1 k = callCountOf g k ∧
        kindOf (recomputeOne g j).1 k = kindOf g k := by
      intro k hkj
      exact node_eq_obs (recomputeOne g j).1 g k (recomputeOne_size g j)
        (hnodeeq k hkj)
    have hnodup := List.nodup_cons.mp hn
    have hjrest : j ∉ rest := hnodup.1
    have hd1 : ∀ k ∈ rest, stateOf (recomputeOne g j).1 k = NodeState.dirty := by
      intro k hkr
      have hkj : k ≠ j := fun h => hjrest (h ▸ hkr)
      rw [(hobs_ne k hkj).1]
      exact hdirty k (List.mem_cons_of_mem j hkr)
    have hr1 : ∀ k ∈ rest, ∀ d ∈ depsOf (recomputeOne g j).1 k,
        stateOf (recomputeOne g j).1 d ≠ NodeState.dirty := by
      intro k hkr d hd
      rw [← hshape1.deps k] at hd
      by_cases hdj : d = j
      · subst hdj
        rw [hobs.1]
        intro hcon
        cases hcon
      · rw [(hobs_ne d hdj).1]
        exact hready k (List.mem_cons_of_mem j hkr) d hd
    have hc1 : ∀ k ∈ rest, ∃ fn2 ds2,
        kindOf (recomputeOne g j).1 k = NodeKind.computed fn2 ds2 := by
      intro k hkr
      obtain ⟨fn2, ds2, hk2⟩ := hcomp k (List.mem_cons_of_mem j hkr)
      exact ⟨fn2, ds2, (hshape1.2 k).symm.trans hk2⟩
    have ht1 : TotalFns (recomputeOne g j).1 := hshape1.total ht
    obtain ⟨ihe, ihev, ihun, ihsh, ihobs, ihcons⟩ :=
      ih (recomputeOne g j).1 hnodup.2 hd1 hr1 hc1 ht1
    have hRnode_j : (runReady (recomputeOne g j).1 rest).g.node j =
        (recomputeOne g j).1.node j := ihun j hjrest
    have hRobs_j := node_eq_obs (runReady (recomputeOne g j).1 rest).g
      (recomputeOne g j).1 j ihsh.1.symm hRnode_j
    refine ⟨?_, ?_, ?_, ?_, ?_, ?_⟩
    · rw [hunfold]
      exact ihe
    · rw [hunfold]
      show ⟨j, allDepsSettled g j⟩ :: (runReady (recomputeOne g j).1 rest).events =
        (j :: rest).map fun x => ⟨x, true⟩
      rw [hsettled, ihev, List.map_cons]
    · intro k hkmem
      rw [hunfold]
      show (runReady (recomputeOne g j).1 rest).g.node k = g.node k
      have hkj : k ≠ j := fun h => hkmem (h ▸ List.mem_cons_self j rest)
      have hkr : k ∉ rest := fun h => hkmem (List.mem_cons_of_mem j h)
      rw [ihun k hkr, hnodeeq k hkj]
    · rw [hunfold]
      exact hshape1.trans ihsh
    · intro x hx
      rw [hunfold]
      rcases List.mem_cons.mp hx with hxj | hxr
      · subst hxj
        refine ⟨hRobs_j.1.trans hobs.1, ?_, ?_⟩
        · show callCountOf (runReady (recomputeOne g x).1 rest).g x =
            callCountOf g x + 1
          rw [hRobs_j.2.2.2.1, hobs.2.2.2.1]
        · show versionOf (runReady (recomputeOne g x).1 rest).g x =
            versionOf g x + 1
          rw [hRobs_j.2.2.1, hobs.2.2.1]
      · have hxj : x ≠ j := fun h => hjrest (h ▸ hxr)
        obtain ⟨o1, o2, o3⟩ := ihobs x hxr
        refine ⟨o1, ?_, ?_⟩
        · show callCountOf (runReady (recomputeOne g j).1 rest).g x =
            callCountOf g x + 1
          rw [o2, (hobs_ne x hxj).2.2.2.1]
        · show versionOf (runReady (recomputeOne g j).1 rest).g x =
            versionOf g x + 1
          rw [o3, (hobs_ne x hxj).2.2.1]
    · intro x hx fn2 ds2 hk2
      rw [hunfold]
      rcases List.mem_cons.mp hx with hxj | hxr
      · subst hxj
        have heq : fn2 = fn ∧ ds2 = ds := by
          have h2 := hk2.symm.trans hk
          cases h2
          exact ⟨rfl, rfl⟩
        obtain ⟨rfl, rfl⟩ := heq
        show fn2 (ds2.map (valueOf g)) =
          some (valueOf (runReady (recomputeOne g x).1 rest).g x)
        rw [ho, hRobs_j.2.1, hobs.2.1]
      · have hxj : x ≠ j := fun h => hjrest (h ▸ hxr)
        have hk2a : kindOf (recomputeOne g j).1 x = NodeKind.computed fn2 ds2 :=
          ((hshape1.2 x).symm).trans hk2
        have hmap : ds2.map (valueOf (recomputeOne g j).1) = ds2.map (valueOf g) := by
          refine List.map_congr_left ?_
          intro d hd
          have hdmem : d ∈ depsOf g x := by
            rw [depsOf_of_computed g x fn2 ds2 hk2]
            exact hd
          have hdj : d ≠ j := by
            intro h
            exact hready x hx d hdmem
              (h ▸ hdirty j (List.mem_cons_self j rest))
          exact (hobs_ne d hdj).2.1
        have := ihcons x hxr fn2 ds2 hk2a
        rw [hmap] at this
        show fn2 (ds2.map (valueOf g)) =
          some (valueOf (runReady (recomputeOne g j).1 rest).g x)
        exact this

theorem exists_min_rank (l : List NodeId) (rank : NodeId → Nat) (hl : l ≠ []) :
    ∃ j ∈ l, ∀ k ∈ l, rank j ≤ rank k := by
  induction l with
  | nil => cases hl rfl
  | cons a t ih =>
    rcases eq_or_ne t [] with ht | ht
    · subst ht
      refine ⟨a, List.mem_cons_self a [], ?_⟩
      intro k hk
      rcases List.mem_cons.mp hk with hk | hk
      · rw [hk]
      · cases hk
    · obtain ⟨j, hj, hmin⟩ := ih ht
      rcases Nat.le_total (rank a) (rank j) with hle | hle
      · refine ⟨a, List.mem_cons_self a t, ?_⟩
        intro k hk
        rcases List.mem_cons.mp hk with hk | hk
        · rw [hk]
        · exact hle.trans (hmin k hk)
      · refine ⟨j, List.mem_cons_of_mem a hj, ?_⟩
        intro k hk
        rcases List.mem_cons.mp hk with hk | hk
        · rw [hk]
          exact hle
        · exact hmin k hk

theorem readyIds_ne_nil (g : Graph) (ha : Acyclic g) (hd : dirtyIds g ≠ []) :
    readyIds g ≠ [] := by
  obtain ⟨rank, hrank⟩ := ha
  obtain ⟨j, hj, hmin⟩ := exists_min_rank (dirtyIds g) rank hd
  have hjd := (mem_dirtyIds g j).mp hj
  have hjlt := lt_size_of_dirty g j hjd
  have hready : ∀ d ∈ depsOf g j, stateOf g d ≠ NodeState.dirty := by
    intro d hdep hcon
    have hd1 : d ∈ dirtyIds g := (mem_dirtyIds g d).mpr hcon
    have h1 := hmin d hd1
    have h2 := hrank j hjlt d hdep
    omega
  exact List.ne_nil_of_mem ((mem_readyIds g j).mpr ⟨hjd, hready⟩)

theorem count_nodup (l : List NodeId) (hn : l.Nodup) (j : NodeId) :
    l.count j = if j ∈ l then 1 else 0 := by
  by_cases h : j ∈ l
  · rw [if_pos h]
    have h1 := List.nodup_iff_count_le_one.mp hn j
    have h2 : 0 < l.count j := List.count_pos_iff.mpr h
    omega
  · rw [if_neg h, List.count_eq_zero_of_not_mem h]

theorem events_ids_map (rl : List NodeId) :
    ((rl.map fun j => (⟨j, true⟩ : Event)).map Event.node) = rl := by
  induction rl with
  | nil => rfl
  | cons a t ih => simp [ih]

theorem length_lt_of_filters (L : List NodeId) (p q : NodeId → Bool)
    (hnd : L.Nodup) (himp : ∀ x ∈ L, q x = true → p x = true)
    (x : NodeId) (hx : x ∈ L) (hpx : p x = true) (hqx : ¬ q x = true) :
    (L.filter q).length < (L.filter p).length := by
  refine length_lt_of_proper (L.filter q) (L.filter p) (hnd.filter q) ?_ x ?_ ?_
  · intro y hy
    obtain ⟨hy1, hy2⟩ := List.mem_filter.mp hy
    exact List.mem_filter.mpr ⟨hy1, himp y hy1 hy2⟩
  · exact List.mem_filter.mpr ⟨hx, hpx⟩
  · intro hcon
    exact hqx (List.mem_filter.mp hcon).2

theorem dirtyIds_length_lt (g gr : Graph) (hsz : gr.size = g.size)
    (hrlne : readyIds g ≠ [])
    (hclean : ∀ j ∈ readyIds g, stateOf gr j = NodeState.clean)
    (hsame : ∀ k, k ∉ readyIds g → stateOf gr k = stateOf g k) :
    (dirtyIds gr).length < (dirtyIds g).length := by
  have hR : dirtyIds gr =
      (List.range g.size).filter fun j => decide (stateOf gr j = NodeState.dirty) := by
    rw [dirtyIds, hsz]
  rw [hR, dirtyIds]
  obtain ⟨x, hx⟩ := List.exists_mem_of_ne_nil (readyIds g) hrlne
  have hxd := ((mem_readyIds g x).mp hx).1
  refine length_lt_of_filters (List.range g.size) _ _ (List.nodup_range g.size)
    ?_ x ?_ ?_ ?_
  · intro y hy hq
    have hq2 := of_decide_eq_true hq
    by_cases hyr : y ∈ readyIds g
    · rw [hclean y hyr] at hq2
      cases hq2
    · rw [hsame y hyr] at hq2
      exact decide_eq_true hq2
  · exact List.mem_range.mpr (lt_size_of_dirty g x hxd)
  · exact decide_eq_true hxd
  · intro hcon
    have hc2 := of_decide_eq_true hcon
    rw [hclean x hx] at hc2
    cases hc2

theorem propagateAux_total (fuel : Nat) : ∀ g : Graph,
    Acyclic g → TotalFns g → DirtyComputed g → (dirtyIds g).length ≤ fuel →
    (propagateAux fuel g).err = none ∧
    (∀ ev ∈ (propagateAux fuel g).events, ev.settled = true) ∧
    (∀ j, ((propagateAux fuel g).events.map Event.node).count j =
      if stateOf g j = NodeState.dirty then 1 else 0) ∧
    (∀ j, stateOf g j ≠ NodeState.dirty →
      (propagateAux fuel g).g.node j = g.node j) ∧
    SameShape g (propagateAux fuel g).g ∧
    (∀ j, stateOf g j = NodeState.dirty →
      stateOf (propagateAux fuel g).g j = NodeState.clean ∧
      callCountOf (propagateAux fuel g).g j = callCountOf g j + 1 ∧
      Consistent (propagateAux fuel g).g j) := by
  induction fuel with
  | zero =>
    intro g ha ht hdc hlen
    have hnil : dirtyIds g = [] := List.eq_nil_of_length_eq_zero (by omega)
    have hnd : ∀ j, stateOf g j ≠ NodeState.dirty := by
      intro j hcon
      have := (mem_dirtyIds g j).mpr hcon
      rw [hnil] at this
      cases this
    rw [propagateAux, hnil]
    refine ⟨rfl, ?_, ?_, ?_, SameShape.refl g, ?_⟩
    · intro ev hev
      cases hev
    · intro j
      rw [if_neg (hnd j)]
      rfl
    · intro j hj
      rfl
    · intro j hj
      exact absurd hj (hnd j)
  | succ fuel ih =>
    intro g ha ht hdc hlen
    by_cases hdn : dirtyIds g = []
    · have hnd : ∀ j, stateOf g j ≠ NodeState.dirty := by
        intro j hcon
        have := (mem_dirtyIds g j).mpr hcon
        rw [hdn] at this
        cases this
      rw [propagateAux, if_pos hdn]
      refine ⟨rfl, ?_, ?_, ?_, SameShape.refl g, ?_⟩
      · intro ev hev
        cases hev
      · intro j
        rw [if_neg (hnd j)]
        rfl
      · intro j hj
        rfl
      · intro j hj
        exact absurd hj (hnd j)
    · have hrn : readyIds g ≠ [] := readyIds_ne_nil g ha hdn
      have hrsub : ∀ j ∈ readyIds g, stateOf g j = NodeState.dirty :=
        fun j hj => ((mem_readyIds g j).mp hj).1
      have hrready : ∀ j ∈ readyIds g, ∀ d ∈ depsOf g j,
          stateOf g d ≠ NodeState.dirty :=
        fun j hj => ((mem_readyIds g j).mp hj).2
      have hrcomp : ∀ j ∈ readyIds g, ∃ fn ds,
          kindOf g j = NodeKind.computed fn ds :=
        fun j hj => hdc j (hrsub j hj)
      obtain ⟨re, rev, run, rsh, robs, rcons⟩ :=
        runReady_total g (readyIds g) (readyIds_nodup g) hrsub hrready hrcomp ht
      have hnotin_dirty : ∀ k, k ∉ readyIds g →
          stateOf (runReady g (readyIds g)).g k = stateOf g k := by
        intro k hk
        exact (node_eq_obs (runReady g (readyIds g)).g g k rsh.1.symm (run k hk)).1
      have hlen2 : (dirtyIds (runReady g (readyIds g)).g).length ≤ fuel := by
        have := dirtyIds_length_lt g (runReady g (readyIds g)).g rsh.1.symm hrn
          (fun j hj => (robs j hj).1) hnotin_dirty
        omega
      have ha2 : Acyclic (runReady g (readyIds g)).g := rsh.acyclic ha
      have ht2 : TotalFns (runReady g (readyIds g)).g := rsh.total ht
      have hdc2 : DirtyComputed (runReady g (readyIds g)).g := by
        intro j hj
        have hjn : j ∉ readyIds g := by
          intro hcon
          rw [(robs j hcon).1] at hj
          cases hj
        have hjd : stateOf g j = NodeState.dirty := by
          rw [← hnotin_dirty j hjn]
          exact hj
        obtain ⟨fn, ds, hk⟩ := hdc j hjd
        exact ⟨fn, ds, (rsh.2 j).symm.trans hk⟩
      obtain ⟨pe, pev, pcount, pun, psh, pobs⟩ :=
        ih (runReady g (readyIds g)).g ha2 ht2 hdc2 hlen2
      have hunfold : propagateAux (fuel + 1) g =
          ⟨(propagateAux fuel (runReady g (readyIds g)).g).g,
           (runReady g (readyIds g)).events ++
             (propagateAux fuel (runReady g (readyIds g)).g).events,
           (propagateAux fuel (runReady g (readyIds g)).g).err⟩ := by
        rw [propagateAux, if_neg hdn, if_neg hrn, re]
      rw [hunfold]
      have hshape_all : SameShape g (propagateAux fuel (runReady g (readyIds g)).g).g :=
        rsh.trans psh
      refine ⟨pe, ?_, ?_, ?_, hshape_all, ?_⟩
      · intro ev hev
        rcases List.mem_append.mp hev with hev | hev
        · rw [rev] at hev
          obtain ⟨j, hj, hje⟩ := List.mem_map.mp hev
          rw [← hje]
        · exact pev ev hev
      · intro j
        show (((runReady g (readyIds g)).events ++
          (propagateAux fuel (runReady g (readyIds g)).g).events).map Event.node).count j =
          (if stateOf g j = NodeState.dirty then 1 else 0)
        rw [List.map_append, List.count_append, rev, events_ids_map,
          count_nodup (readyIds g) (readyIds_nodup g) j, pcount j]
        by_cases hjr : j ∈ readyIds g
        · rw [if_pos hjr, if_pos (hrsub j hjr)]
          have : stateOf (runReady g (readyIds g)).g j ≠ NodeState.dirty := by
            rw [(robs j hjr).1]
            intro hcon
            cases hcon
          rw [if_neg this]
        · rw [if_neg hjr]
          by_cases hjd : stateOf g j = NodeState.dirty
          · rw [if_pos hjd]
            rw [hnotin_dirty j hjr]
            rw [if_pos hjd]
          · rw [if_neg hjd]
            rw [hnotin_dirty j hjr]
            rw [if_neg hjd]
      · intro j hj
        have hjr : j ∉ readyIds g := fun hcon => hj (hrsub j hcon)
        have h2 : stateOf (runReady g (readyIds g)).g j ≠ NodeState.dirty := by
          rw [hnotin_dirty j hjr]
          exact hj
        show (propagateAux fuel (runReady g (readyIds g)).g).g.node j = g.node j
        rw [pun j h2, run j hjr]
      · intro j hjd
        by_cases hjr : j ∈ readyIds g
        · have hstR : stateOf (runReady g (readyIds g)).g j = NodeState.clean :=
            (robs j hjr).1
          have hndR : stateOf (runReady g (readyIds g)).g j ≠ NodeState.dirty := by
            rw [hstR]
            intro hcon
            cases hcon
          have hnode := pun j hndR
          have hobsP := node_eq_obs (propagateAux fuel (runReady g (readyIds g)).g).g
            (runReady g (readyIds g)).g j psh.1.symm hnode
          refine ⟨hobsP.1.trans hstR, ?_, ?_⟩
          · show callCountOf (propagateAux fuel (runReady g (readyIds g)).g).g j =
              callCountOf g j + 1
            rw [hobsP.2.2.2.1, (robs j hjr).2.1]
          · intro fn ds hk
            have hkg : kindOf g j = NodeKind.computed fn ds :=
              (hshape_all.2 j).trans hk
            have hvals := rcons j hjr fn ds hkg
            have hvj : valueOf (propagateAux fuel (runReady g (readyIds g)).g).g j =
                valueOf (runReady g (readyIds g)).g j := hobsP.2.1
            have hmap : ds.map (valueOf (propagateAux fuel (runReady g (readyIds g)).g).g) =
                ds.map (valueOf g) := by
              refine List.map_congr_left ?_
              intro d hd
              have hdg : d ∈ depsOf g j := by
                rw [depsOf_of_computed g j fn ds hkg]
                exact hd
              have hdnd : stateOf g d ≠ NodeState.dirty := hrready j hjr d hdg
              have hdr : d ∉ readyIds g := fun hcon => hdnd (hrsub d hcon)
              have hdndR : stateOf (runReady g (readyIds g)).g d ≠ NodeState.dirty := by
                rw [hnotin_dirty d hdr]
                exact hdnd
              have e1 := node_eq_obs (propagateAux fuel (runReady g (readyIds g)).g).g
                (runReady g (readyIds g)).g d psh.1.symm (pun d hdndR)
              have e2 := node_eq_obs (runReady g (readyIds g)).g g d rsh.1.symm
                (run d hdr)
              exact e1.2.1.trans e2.2.1
            rw [hmap, hvj]
            exact hvals
        · have hjdR : stateOf (runReady g (readyIds g)).g j = NodeState.dirty := by
            rw [hnotin_dirty j hjr]
            exact hjd
          obtain ⟨q1, q2, q3⟩ := pobs j hjdR
          refine ⟨q1, ?_, q3⟩
          show callCountOf (propagateAux fuel (runReady g (readyIds g)).g).g j =
            callCountOf g j + 1
          rw [q2]
          have e2 := node_eq_obs (runReady g (readyIds g)).g g j rsh.1.symm (run j hjr)
          rw [e2.2.2.2.1]

theorem depPath_stuck (g : Graph) (e : NodeId) (l : List NodeId) (j : NodeId)
    (hp : DepPath g e l j) :
    ∀ x ∈ j :: l, ∃ d ∈ depsOf g x, d ∈ e :: j :: l := by
  induction hp with
  | single d j hd =>
    intro x hx
    rcases List.mem_cons.mp hx with hx | hx
    · subst hx
      exact ⟨d, hd, List.mem_cons_self d [x]⟩
    · cases hx
  | cons d e j l hd hp ih =>
    intro x hx
    rcases List.mem_cons.mp hx with hx | hx
    · subst hx
      exact ⟨d, hd, List.mem_cons_of_mem e (List.mem_cons_of_mem x
        (List.mem_cons_self d l))⟩
    · obtain ⟨dd, hdd, hddm⟩ := ih x hx
      refine ⟨dd, hdd, ?_⟩
      rcases List.mem_cons.mp hddm with h1 | h1
      · exact h1 ▸ List.mem_cons_self dd (j :: d :: l)
      · exact List.mem_cons_of_mem e (List.mem_cons_of_mem j h1)

theorem depPath_in_affected (g : Graph) (i : NodeId) (e : NodeId)
    (l : List NodeId) (j : NodeId) (hp : DepPath g e l j)
    (he : e ∈ affected g i) : ∀ x ∈ j :: l, x ∈ affected g i := by
  induction hp with
  | single d j hd =>
    intro x hx
    rcases List.mem_cons.mp hx with hx | hx
    · subst hx
      obtain ⟨fn, ds, hk⟩ := computed_of_deps_mem g x d hd
      exact affected_closed g i d x he hd (lt_size_of_computed g x fn ds hk)
    · cases hx
  | cons d e j l hd hp ih =>
    intro x hx
    rcases List.mem_cons.mp hx with hx | hx
    · subst hx
      have hdaff : d ∈ affected g i := ih he d (List.mem_cons_self d l)
      obtain ⟨fn, ds, hk⟩ := computed_of_deps_mem g x d hd
      exact affected_closed g i d x hdaff hd (lt_size_of_computed g x fn ds hk)
    · exact ih he x hx

theorem propagateAux_stuck (fuel : Nat) : ∀ (g : Graph) (S : List NodeId),
    S ≠ [] → (∀ x ∈ S, stateOf g x = NodeState.dirty) →
    (∀ x ∈ S, ∃ d ∈ depsOf g x, d ∈ S) →
    TotalFns g → DirtyComputed g →
    (propagateAux fuel g).err = some PropError.cycleDetected ∧
    (∀ j, stateOf g j ≠ NodeState.dirty →
      (propagateAux fuel g).g.node j = g.node j) ∧
    SameShape g (propagateAux fuel g).g ∧
    (∀ ev ∈ (propagateAux fuel g).events, ev.settled = true ∧
      stateOf (propagateAux fuel g).g ev.node = NodeState.clean ∧
      Consistent (propagateAux fuel g).g ev.node) := by
  induction fuel with
  | zero =>
    intro g S hSne hSdirty hSstuck ht hdc
    obtain ⟨x, hx⟩ := List.exists_mem_of_ne_nil S hSne
    have hdn : dirtyIds g ≠ [] :=
      List.ne_nil_of_mem ((mem_dirtyIds g x).mpr (hSdirty x hx))
    rw [propagateAux, if_neg hdn]
    refine ⟨rfl, fun j hj => rfl, SameShape.refl g, ?_⟩
    intro ev hev
    cases hev
  | succ fuel ih =>
    intro g S hSne hSdirty hSstuck ht hdc
    obtain ⟨x, hx⟩ := List.exists_mem_of_ne_nil S hSne
    have hdn : dirtyIds g ≠ [] :=
      List.ne_nil_of_mem ((mem_dirtyIds g x).mpr (hSdirty x hx))
    by_cases hrn : readyIds g = []
    · rw [propagateAux, if_neg hdn, if_pos hrn]
      refine ⟨rfl, fun j hj => rfl, SameShape.refl g, ?_⟩
      intro ev hev
      cases hev
    · have hrsub : ∀ j ∈ readyIds g, stateOf g j = NodeState.dirty :=
        fun j hj => ((mem_readyIds g j).mp hj).1
      have hrready : ∀ j ∈ readyIds g, ∀ d ∈ depsOf g j,
          stateOf g d ≠ NodeState.dirty :=
        fun j hj => ((mem_readyIds g j).mp hj).2
      have hrcomp : ∀ j ∈ readyIds g, ∃ fn ds,
          kindOf g j = NodeKind.computed fn ds :=
        fun j hj => hdc j (hrsub j hj)
      obtain ⟨re, rev, run, rsh, robs, rcons⟩ :=
        runReady_total g (readyIds g) (readyIds_nodup g) hrsub hrready hrcomp ht
      have hSnr : ∀ y ∈ S, y ∉ readyIds g := by
        intro y hy hcon
        obtain ⟨d, hd, hdS⟩ := hSstuck y hy
        exact hrready y hcon d hd (hSdirty d hdS)
      have hnotin_dirty : ∀ k, k ∉ readyIds g →
          stateOf (runReady g (readyIds g)).g k = stateOf g k := by
        intro k hk
        exact (node_eq_obs (runReady g (readyIds g)).g g k rsh.1.symm (run k hk)).1
      have hSdirty2 : ∀ y ∈ S, stateOf (runReady g (readyIds g)).g y =
          NodeState.dirty := by
        intro y hy
        rw [hnotin_dirty y (hSnr y hy)]
        exact hSdirty y hy
      have hSstuck2 : ∀ y ∈ S, ∃ d ∈ depsOf (runReady g (readyIds g)).g y,
          d ∈ S := by
        intro y hy
        obtain ⟨d, hd, hdS⟩ := hSstuck y hy
        exact ⟨d, (rsh.deps y) ▸ hd, hdS⟩
      have ht2 : TotalFns (runReady g (readyIds g)).g := rsh.total ht
      have hdc2 : DirtyComputed (runReady g (readyIds g)).g := by
        intro j hj
        have hjn : j ∉ readyIds g := by
          intro hcon
          rw [(robs j hcon).1] at hj
          cases hj
        have hjd : stateOf g j = NodeState.dirty := by
          rw [← hnotin_dirty j hjn]
          exact hj
        obtain ⟨fn, ds, hk⟩ := hdc j hjd
        exact ⟨fn, ds, (rsh.2 j).symm.trans hk⟩
      obtain ⟨pe, pun, psh, pev⟩ :=
        ih (runReady g (readyIds g)).g S hSne hSdirty2 hSstuck2 ht2 hdc2
      have hunfold : propagateAux (fuel + 1) g =
          ⟨(propagateAux fuel (runReady g (readyIds g)).g).g,
           (runReady g (readyIds g)).events ++
             (propagateAux fuel (runReady g (readyIds g)).g).events,
           (propagateAux fuel (runReady g (readyIds g)).g).err⟩ := by
        rw [propagateAux, if_neg hdn, if_neg hrn, re]
      rw [hunfold]
      have hshape_all : SameShape g
          (propagateAux fuel (runReady g (readyIds g)).g).g := rsh.trans psh
      refine ⟨pe, ?_, hshape_all, ?_⟩
      · intro j hj
        have hjr : j ∉ readyIds g := fun hcon => hj (hrsub j hcon)
        have h2 : stateOf (runReady g (readyIds g)).g j ≠ NodeState.dirty := by
          rw [hnotin_dirty j hjr]
          exact hj
        show (propagateAux fuel (runReady g (readyIds g)).g).g.node j = g.node j
        rw [pun j h2, run j hjr]
      · intro ev hev
        rcases List.mem_append.mp hev with hev | hev
        · rw [rev] at hev
          obtain ⟨j, hj, hje⟩ := List.mem_map.mp hev
          have hstR : stateOf (runReady g (readyIds g)).g j = NodeState.clean :=
            (robs j hj).1
          have hndR : stateOf (runReady g (readyIds g)).g j ≠ NodeState.dirty := by
            rw [hstR]
            intro hcon
            cases hcon
          have hnode := pun j hndR
          have hobsP := node_eq_obs
            (propagateAux fuel (runReady g (readyIds g)).g).g
            (runReady g (readyIds g)).g j psh.1.symm hnode
          refine hje ▸ ⟨rfl, hobsP.1.trans hstR, ?_⟩
          intro fn ds hk
          have hkg : kindOf g j = NodeKind.computed fn ds :=
            (hshape_all.2 j).trans hk
          have hvals := rcons j hj fn ds hkg
          have hmap : ds.map
              (valueOf (propagateAux fuel (runReady g (readyIds g)).g).g) =
              ds.map (valueOf g) := by
            refine List.map_congr_left ?_
            intro d hd
            have hdg : d ∈ depsOf g j := by
              rw [depsOf_of_computed g j fn ds hkg]
              exact hd
            have hdnd : stateOf g d ≠ NodeState.dirty := hrready j hj d hdg
            have hdr : d ∉ readyIds g := fun hcon => hdnd (hrsub d hcon)
            have hdndR : stateOf (runReady g (readyIds g)).g d ≠
                NodeState.dirty := by
              rw [hnotin_dirty d hdr]
              exact hdnd
            have e1 := node_eq_obs
              (propagateAux fuel (runReady g (readyIds g)).g).g
              (runReady g (readyIds g)).g d psh.1.symm (pun d hdndR)
            have e2 := node_eq_obs (runReady g (readyIds g)).g g d rsh.1.symm
              (run d hdr)
            exact e1.2.1.trans e2.2.1
          rw [hmap, hobsP.2.1]
          exact hvals
        · exact pev ev hev

theorem set_eq (g : Graph) (i : NodeId) (v : Int) :
    set g i v = propagateAux g.size (gmOf g i v) := rfl

theorem gcOf_shape (g : Graph) (i : NodeId) (v : Int) :
    SameShape g (gcOf g i v) :=
  ((sameShape_writeCell g i v).trans
    (sameShape_setState (writeCell g i v) i .dirty)).trans
    (sameShape_setState (setState (writeCell g i v) i .dirty) i .clean)

theorem gmOf_shape (g : Graph) (i : NodeId) (v : Int) :
    SameShape g (gmOf g i v) :=
  (gcOf_shape g i v).trans
    (sameShape_markDirty (gcOf g i v) (affected (gcOf g i v) i))

theorem affected_gcOf (g : Graph) (i : NodeId) (v : Int) :
    affected (gcOf g i v) i = affected g i :=
  ((gcOf_shape g i v).affectedEq i).symm

theorem gmOf_state_dirty_iff (g : Graph) (i : NodeId) (v : Int)
    (hclean : AllClean g) (hi : i < g.size) (j : NodeId) :
    stateOf (gmOf g i v) j = NodeState.dirty ↔ j ∈ affected g i := by
  constructor
  · intro hd
    by_contra hna
    have hna2 : j ∉ affected (gcOf g i v) i := by
      rw [affected_gcOf]
      exact hna
    rw [gmOf, stateOf_markDirty_not_mem _ _ _ hna2] at hd
    by_cases hji : j = i
    · subst hji
      rw [gcOf, stateOf_setState_self
        (setState (writeCell g j v) j NodeState.dirty) j NodeState.clean hi] at hd
      cases hd
    · rw [gcOf, stateOf_setState_ne _ _ _ _ hji, stateOf_setState_ne _ _ _ _ hji,
        stateOf_writeCell] at hd
      by_cases hjs : j < g.size
      · rw [hclean j hjs] at hd
        cases hd
      · rw [stateOf_ge g j (Nat.not_lt.mp hjs)] at hd
        cases hd
  · intro haf
    have haf2 : j ∈ affected (gcOf g i v) i := by
      rw [affected_gcOf]
      exact haf
    exact stateOf_markDirty_mem (gcOf g i v) _ j haf2
      (affected_lt (gcOf g i v) i j haf2)

theorem source_not_in_affected (g : Graph) (i : NodeId)
    (hsrc : kindOf g i = NodeKind.source) : i ∉ affected g i := by
  intro hcon
  exact source_not_reached g i hsrc (reaches_of_mem_affected g i i hcon)

theorem gmOf_state_i (g : Graph) (i : NodeId) (v : Int) (hi : i < g.size)
    (hsrc : kindOf g i = NodeKind.source) :
    stateOf (gmOf g i v) i = NodeState.clean := by
  have hsrc2 : kindOf (gcOf g i v) i = NodeKind.source :=
    ((gcOf_shape g i v).2 i).symm.trans hsrc
  have hna : i ∉ affected (gcOf g i v) i := by
    rw [affected_gcOf]
    exact source_not_in_affected g i hsrc
  rw [gmOf, stateOf_markDirty_not_mem _ _ _ hna, gcOf, stateOf_setState_self
    (setState (writeCell g i v) i NodeState.dirty) i NodeState.clean hi]

theorem gmOf_value_i (g : Graph) (i : NodeId) (v : Int) (hi : i < g.size) :
    valueOf (gmOf g i v) i = v := by
  rw [gmOf, valueOf_markDirty, gcOf, valueOf_setState, valueOf_setState,
    valueOf_writeCell_self g i v hi]

theorem gmOf_version_i (g : Graph) (i : NodeId) (v : Int) (hi : i < g.size) :
    versionOf (gmOf g i v) i = versionOf g i + 1 := by
  rw [gmOf, versionOf_markDirty, gcOf, versionOf_setState, versionOf_setState,
    versionOf_writeCell_self g i v hi]

theorem gmOf_value_ne (g : Graph) (i : NodeId) (v : Int) (j : NodeId)
    (hj : j ≠ i) : valueOf (gmOf g i v) j = valueOf g j := by
  rw [gmOf, valueOf_markDirty, gcOf, valueOf_setState, valueOf_setState]
  exact (node_eq_obs (writeCell g i v) g j rfl (node_writeCell_ne g i j v hj)).2.1

theorem gmOf_callCount (g : Graph) (i : NodeId) (v : Int) (j : NodeId) :
    callCountOf (gmOf g i v) j = callCountOf g j := by
  rw [gmOf, callCountOf_markDirty, gcOf, callCountOf_setState,
    callCountOf_setState, callCountOf_writeCell]

theorem gmOf_node_untouched (g : Graph) (i : NodeId) (v : Int) (j : NodeId)
    (hnaff : j ∉ affected g i) (hj : j ≠ i) :
    (gmOf g i v).node j = g.node j := by
  have hna2 : j ∉ affected (gcOf g i v) i := by
    rw [affected_gcOf]
    exact hnaff
  rw [gmOf, markDirty_node_not_mem _ _ _ hna2, gcOf, node_setState_ne _ _ _ _ hj,
    node_setState_ne _ _ _ _ hj, node_writeCell_ne g i j v hj]

theorem gmOf_dirtyComputed (g : Graph) (i : NodeId) (v : Int)
    (hclean : AllClean g) (hi : i < g.size) :
    DirtyComputed (gmOf g i v) := by
  intro j hj
  have haf := (gmOf_state_dirty_iff g i v hclean hi j).mp hj
  obtain ⟨fn, ds, hk⟩ :=
    reaches_computed g i j (reaches_of_mem_affected g i j haf)
  exact ⟨fn, ds, ((gmOf_shape g i v).2 j).symm.trans hk⟩

theorem gmOf_dirty_len (g : Graph) (i : NodeId) (v : Int) :
    (dirtyIds (gmOf g i v)).length ≤ g.size := by
  have h1 : (dirtyIds (gmOf g i v)).length ≤
      (List.range (gmOf g i v).size).length :=
    List.length_filter_le _ _
  rw [List.length_range] at h1
  exact h1

theorem set_master (g : Graph) (i : NodeId) (v : Int)
    (hclean : AllClean g) (ha : Acyclic g) (ht : TotalFns g)
    (hi : i < g.size) (hsrc : kindOf g i = NodeKind.source) :
    (set g i v).err = none ∧
    (∀ ev ∈ (set g i v).events, ev.settled = true) ∧
    (∀ j, (((set g i v).events.map Event.node).count j) =
      if j ∈ affected g i then 1 else 0) ∧
    (∀ j, j ∈ affected g i ↔ Reaches g i j) ∧
    valueOf (set g i v).g i = v ∧
    versionOf (set g i v).g i = versionOf g i + 1 ∧
    stateOf (set g i v).g i = NodeState.clean ∧
    callCountOf (set g i v).g i = callCountOf g i ∧
    (∀ j, j ∈ affected g i →
      stateOf (set g i v).g j = NodeState.clean ∧
      callCountOf (set g i v).g j = callCountOf g j + 1 ∧
      Consistent (set g i v).g j) ∧
    (∀ j, j ∉ affected g i → j ≠ i →
      (set g i v).g.node j = g.node j ∧
      callCountOf (set g i v).g j = callCountOf g j ∧
      valueOf (set g i v).g j = valueOf g j ∧
      stateOf (set g i v).g j = stateOf g j) := by
  obtain ⟨pe, pset, pcount, pun, psh, pobs⟩ :=
    propagateAux_total g.size (gmOf g i v)
      ((gmOf_shape g i v).acyclic ha) ((gmOf_shape g i v).total ht)
      (gmOf_dirtyComputed g i v hclean hi) (gmOf_dirty_len g i v)
  rw [set_eq g i v]
  have hszP : (propagateAux g.size (gmOf g i v)).g.size = g.size := psh.1.symm
  have hsti : stateOf (gmOf g i v) i = NodeState.clean :=
    gmOf_state_i g i v hi hsrc
  have hndi : stateOf (gmOf g i v) i ≠ NodeState.dirty := by
    rw [hsti]
    intro hcon
    cases hcon
  have hni := pun i hndi
  have hobsi := node_eq_obs (propagateAux g.size (gmOf g i v)).g (gmOf g i v) i
    hszP hni
  refine ⟨pe, pset, ?_, fun j => mem_affected_iff_reaches g i j, ?_, ?_, ?_, ?_,
    ?_, ?_⟩
  · intro j
    rw [pcount j]
    by_cases haf : j ∈ affected g i
    · rw [if_pos haf,
        if_pos ((gmOf_state_dirty_iff g i v hclean hi j).mpr haf)]
    · rw [if_neg haf, if_neg]
      intro hcon
      exact haf ((gmOf_state_dirty_iff g i v hclean hi j).mp hcon)
  · rw [hobsi.2.1]
    exact gmOf_value_i g i v hi
  · rw [hobsi.2.2.1]
    exact gmOf_version_i g i v hi
  · rw [hobsi.1]
    exact hsti
  · rw [hobsi.2.2.2.1]
    exact gmOf_callCount g i v i
  · intro j haf
    have hjd : stateOf (gmOf g i v) j = NodeState.dirty :=
      (gmOf_state_dirty_iff g i v hclean hi j).mpr haf
    obtain ⟨q1, q2, q3⟩ := pobs j hjd
    refine ⟨q1, ?_, q3⟩
    rw [q2, gmOf_callCount g i v j]
  · intro j hnaff hji
    have hjd : stateOf (gmOf g i v) j ≠ NodeState.dirty := by
      intro hcon
      exact hnaff ((gmOf_state_dirty_iff g i v hclean hi j).mp hcon)
    have hnode : (propagateAux g.size (gmOf g i v)).g.node j = g.node j :=
      (pun j hjd).trans (gmOf_node_untouched g i v j hnaff hji)
    have hobsj := node_eq_obs (propagateAux g.size (gmOf g i v)).g g j
      (hszP.trans rfl) hnode
    exact ⟨hnode, hobsj.2.2.2.1, hobsj.2.1, hobsj.1⟩

theorem set_cycle_master (g : Graph) (i : NodeId) (v : Int) (j0 : NodeId)
    (l : List NodeId)
    (hclean : AllClean g) (ht : TotalFns g) (hi : i < g.size)
    (_hsrc : kindOf g i = NodeKind.source)
    (hreach : Reaches g i j0) (hcyc : DepPath g j0 l j0) :
    (set g i v).err = some PropError.cycleDetected ∧
    (∀ ev ∈ (set g i v).events, ev.settled = true ∧
      stateOf (set g i v).g ev.node = NodeState.clean ∧
      Consistent (set g i v).g ev.node) := by
  have hS_aff : ∀ x ∈ j0 :: l, x ∈ affected g i :=
    depPath_in_affected g i j0 l j0 hcyc (mem_affected_of_reaches g i j0 hreach)
  have hS_stuck_g : ∀ x ∈ j0 :: l, ∃ d ∈ depsOf g x, d ∈ j0 :: l := by
    intro x hx
    obtain ⟨d, hd, hdm⟩ := depPath_stuck g j0 l j0 hcyc x hx
    refine ⟨d, hd, ?_⟩
    rcases List.mem_cons.mp hdm with h1 | h1
    · exact h1 ▸ List.mem_cons_self j0 l
    · exact h1
  have hshape := gmOf_shape g i v
  have hSdirty : ∀ x ∈ j0 :: l, stateOf (gmOf g i v) x = NodeState.dirty :=
    fun x hx => (gmOf_state_dirty_iff g i v hclean hi x).mpr (hS_aff x hx)
  have hSstuck : ∀ x ∈ j0 :: l, ∃ d ∈ depsOf (gmOf g i v) x, d ∈ j0 :: l := by
    intro x hx
    obtain ⟨d, hd, hdm⟩ := hS_stuck_g x hx
    exact ⟨d, (hshape.deps x) ▸ hd, hdm⟩
  obtain ⟨pe, pun, psh, pev⟩ := propagateAux_stuck g.size (gmOf g i v) (j0 :: l)
    (List.cons_ne_nil j0 l) hSdirty hSstuck (hshape.total ht)
    (gmOf_dirtyComputed g i v hclean hi)
  rw [set_eq g i v]
  exact ⟨pe, pev⟩

theorem get_source (g : Graph) (i : NodeId)
    (hsrc : kindOf g i = NodeKind.source) :
    get g i = (some (valueOf g i), g) := by
  rw [get, hsrc]

theorem get_clean_computed (g : Graph) (j : NodeId) (fn : List Int → Option Int)
    (ds : List NodeId) (hk : kindOf g j = NodeKind.computed fn ds)
    (hst : stateOf g j = NodeState.clean) :
    get g j = (some (valueOf g j), g) := by
  rw [get, hk, hst]

theorem get_dirty_fail (g : Graph) (j : NodeId) (fn : List Int → Option Int)
    (ds : List NodeId) (hk : kindOf g j = NodeKind.computed fn ds)
    (hst : stateOf g j = NodeState.dirty)
    (hv : fn (ds.map (valueOf g)) = none) :
    get g j = (none, (recomputeOne g j).1) := by
  rw [get, hk, hst, recomputeOne_none g j fn ds hk hv]

theorem writeSeq_versions_gt (vs : List Int) : ∀ c : ValueCell,
    List.Pairwise (fun a b => a < b) (c.version :: (writeSeq c vs).2) := by
  induction vs with
  | nil =>
    intro c
    refine List.pairwise_cons.mpr ⟨?_, List.Pairwise.nil⟩
    intro b hb
    cases hb
  | cons v vs ih =>
    intro c
    have hih := ih (c.write v).1
    refine List.pairwise_cons.mpr ⟨?_, ?_⟩
    · intro b hb
      rcases List.mem_cons.mp hb with hb | hb
      · rw [hb]
        show c.version < (c.write v).2
        exact Nat.lt_succ_self c.version
      · have hhead := (List.pairwise_cons.mp hih).1 b hb
        have : (c.write v).1.version = c.version + 1 := rfl
        rw [this] at hhead
        omega
    · exact hih

theorem totalFns_diamondG : TotalFns diamondG := by
  intro j hj vals
  have hj4 : j < 4 := hj
  interval_cases j <;> rfl

theorem totalFns_cycleG : TotalFns cycleG := by
  intro j hj vals
  have hj4 : j < 4 := hj
  interval_cases j <;> rfl

theorem totalFns_failG_partial : ∀ j < failG.size, j ≠ 2 →
    ∀ vals, (fnAt failG j vals).isSome = true := by
  intro j hj hne vals
  have hj4 : j < 4 := hj
  interval_cases j
  · rfl
  · rfl
  · exact absurd rfl hne
  · rfl

theorem gmOf_version_ne (g : Graph) (i : NodeId) (v : Int) (j : NodeId)
    (hj : j ≠ i) : versionOf (gmOf g i v) j = versionOf g j := by
  rw [gmOf, versionOf_markDirty, gcOf, versionOf_setState, versionOf_setState]
  exact (node_eq_obs (writeCell g i v) g j rfl (node_writeCell_ne g i j v hj)).2.2.1

theorem runReady_fail (g : Graph) (l : List NodeId) (hn : l.Nodup)
    (hdirty : ∀ j ∈ l, stateOf g j = NodeState.dirty)
    (hready : ∀ j ∈ l, ∀ d ∈ depsOf g j, stateOf g d ≠ NodeState.dirty)
    (hcomp : ∀ j ∈ l, ∃ fn ds, kindOf g j = NodeKind.computed fn ds) :
    SameShape g (runReady g l).g ∧
    (∀ ev ∈ (runReady g l).events, ev.settled = true) ∧
    ((runReady g l).err = none →
      (runReady g l).events = l.map (fun j => ⟨j, true⟩) ∧
      (∀ k, k ∉ l → (runReady g l).g.node k = g.node k) ∧
      (∀ j ∈ l, stateOf (runReady g l).g j = NodeState.clean ∧
        callCountOf (runReady g l).g j = callCountOf g j + 1) ∧
      (∀ j ∈ l, ∀ fn ds, kindOf g j = NodeKind.computed fn ds →
        fn (ds.map (valueOf g)) = some (valueOf (runReady g l).g j))) ∧
    (∀ e, (runReady g l).err = some e →
      e = PropError.computationFailure ∧
      ∃ pre f, (∀ x ∈ pre, x ∈ l) ∧ f ∈ l ∧
        FailedPass g (runReady g l).g (runReady g l).events pre f ∧
        (∀ k, k ∉ pre → k ≠ f → (runReady g l).g.node k = g.node k)) := by
  induction l generalizing g with
  | nil =>
    refine ⟨SameShape.refl g, ?_, ?_, ?_⟩
    · intro ev hev
      cases hev
    · intro _
      refine ⟨rfl, fun k _ => rfl, ?_, ?_⟩ <;> intro j hj <;> cases hj
    · intro e he
      cases he
  | cons j rest ih =>
    obtain ⟨fn, ds, hk⟩ := hcomp j (List.mem_cons_self j rest)
    have hsettled : allDepsSettled g j = true :=
      (allDepsSettled_iff g j).mpr (hready j (List.mem_cons_self j rest))
    have hnodup := List.nodup_cons.mp hn
    have hjrest : j ∉ rest := hnodup.1
    rcases ho : fn (ds.map (valueOf g)) with _ | v
    · -- the head itself fails: the round stops here
      have hobs := recomputeOne_none_obs g j fn ds hk ho
      have hfalse : ¬ (recomputeOne g j).2 = true := by
        rw [hobs.2.2.2.2]
        exact Bool.false_ne_true
      have hunfold := runReady_cons g j rest
      rw [if_neg hfalse] at hunfold
      rw [hunfold]
      have hsh := sameShape_recomputeOne g j
      refine ⟨hsh, ?_, ?_, ?_⟩
      · intro ev hev
        rcases List.mem_cons.mp hev with h1 | h1
        · rw [h1]
          exact hsettled
        · cases h1
      · intro hcon
        cases hcon
      · intro e he
        have he2 := Option.some.inj he
        refine ⟨he2.symm, [], j, ?_, List.mem_cons_self j rest, ?_, ?_⟩
        · intro x hx
          cases hx
        · refine ⟨?_, ?_, ?_, hdirty j (List.mem_cons_self j rest), hobs.1,
            hobs.2.1, hobs.2.2.1, hobs.2.2.2.1, ?_, ?_⟩
          · show [(⟨j, allDepsSettled g j⟩ : Event)] =
              List.map (fun x => (⟨x, true⟩ : Event)) [] ++ [⟨j, true⟩]
            rw [hsettled]
            rfl
          · intro x hx
            cases hx
          · intro x hx
            cases hx
          · refine ⟨fn, ds, (hsh.2 j).symm.trans hk, ?_⟩
            have hmap : ds.map (valueOf (recomputeOne g j).1) =
                ds.map (valueOf g) := by
              refine List.map_congr_left ?_
              intro d hd
              have hdg : d ∈ depsOf g j := by
                rw [depsOf_of_computed g j fn ds hk]
                exact hd
              have hdnd := hready j (List.mem_cons_self j rest) d hdg
              have hdj : d ≠ j := by
                intro hcon
                exact hdnd (hcon ▸ hdirty j (List.mem_cons_self j rest))
              exact (node_eq_obs (recomputeOne g j).1 g d (recomputeOne_size g j)
                (recomputeOne_node_ne g j d hdj)).2.1
            rw [hmap]
            exact ho
          · intro k hkd
            have hkj : k ≠ j := by
              intro hcon
              rw [hcon, hobs.1] at hkd
              cases hkd
            exact recomputeOne_node_ne g j k hkj
        · intro k hk1 hkj
          exact recomputeOne_node_ne g j k hkj
    · -- the head succeeds; recurse on the rest
      have hobs := recomputeOne_some_obs g j fn ds v hk ho
      have hunfold := runReady_cons g j rest
      rw [if_pos hobs.2.2.2.2] at hunfold
      have hshape1 : SameShape g (recomputeOne g j).1 := sameShape_recomputeOne g j
      have hnodeeq : ∀ k, k ≠ j → (recomputeOne g j).1.node k = g.node k :=
        fun k hkj => recomputeOne_node_ne g j k hkj
      have hobs_ne : ∀ k, k ≠ j →
          stateOf (recomputeOne g j).1 k = stateOf g k ∧
          valueOf (recomputeOne g j).1 k = valueOf g k ∧
          versionOf (recomputeOne g j).1 k = versionOf g k ∧
          callCountOf (recomputeOne g j).1 k = callCountOf g k ∧
          kindOf (recomputeOne g j).1 k = kindOf g k :=
        fun k hkj => node_eq_obs (recomputeOne g j).1 g k (recomputeOne_size g j)
          (hnodeeq k hkj)
      have hd1 : ∀ k ∈ rest, stateOf (recomputeOne g j).1 k = NodeState.dirty := by
        intro k hkr
        have hkj : k ≠ j := fun h => hjrest (h ▸ hkr)
        rw [(hobs_ne k hkj).1]
        exact hdirty k (List.mem_cons_of_mem j hkr)
      have hr1 : ∀ k ∈ rest, ∀ d ∈ depsOf (recomputeOne g j).1 k,
          stateOf (recomputeOne g j).1 d ≠ NodeState.dirty := by
        intro k hkr d hd
        rw [← hshape1.deps k] at hd
        by_cases hdj : d = j
        · subst hdj
          rw [hobs.1]
          intro hcon
          cases hcon
        · rw [(hobs_ne d hdj).1]
          exact hready k (List.mem_cons_of_mem j hkr) d hd
      have hc1 : ∀ k ∈ rest, ∃ fn2 ds2,
          kindOf (recomputeOne g j).1 k = NodeKind.computed fn2 ds2 := by
        intro k hkr
        obtain ⟨fn2, ds2, hk2⟩ := hcomp k (List.mem_cons_of_mem j hkr)
        exact ⟨fn2, ds2, (hshape1.2 k).symm.trans hk2⟩
      obtain ⟨ish, iset, isucc, ifail⟩ :=
        ih (recomputeOne g j).1 hnodup.2 hd1 hr1 hc1
      rw [hunfold]
      refine ⟨hshape1.trans ish, ?_, ?_, ?_⟩
      · intro ev hev
        rcases List.mem_cons.mp hev with h1 | h1
        · rw [h1]
          exact hsettled
        · exact iset ev h1
      · intro hnone
        obtain ⟨e1, e2, e3, e4⟩ := isucc hnone
        refine ⟨?_, ?_, ?_, ?_⟩
        · show (⟨j, allDepsSettled g j⟩ : Event) ::
            (runReady (recomputeOne g j).1 rest).events =
            (j :: rest).map fun x => (⟨x, true⟩ : Event)
          rw [hsettled, e1, List.map_cons]
        · intro k hk2
          have hkj : k ≠ j := fun h => hk2 (h ▸ List.mem_cons_self j rest)
          have hkr : k ∉ rest := fun h => hk2 (List.mem_cons_of_mem j h)
          show (runReady (recomputeOne g j).1 rest).g.node k = g.node k
          rw [e2 k hkr, hnodeeq k hkj]
        · intro x hx
          rcases List.mem_cons.mp hx with hxj | hxr
          · subst hxj
            have hRobs := node_eq_obs (runReady (recomputeOne g x).1 rest).g
              (recomputeOne g x).1 x ish.1.symm (e2 x hjrest)
            refine ⟨hRobs.1.trans hobs.1, ?_⟩
            show callCountOf (runReady (recomputeOne g x).1 rest).g x =
              callCountOf g x + 1
            rw [hRobs.2.2.2.1, hobs.2.2.2.1]
          · have hxj : x ≠ j := fun h => hjrest (h ▸ hxr)
            obtain ⟨o1, o2⟩ := e3 x hxr
            refine ⟨o1, ?_⟩
            show callCountOf (runReady (recomputeOne g j).1 rest).g x =
              callCountOf g x + 1
            rw [o2, (hobs_ne x hxj).2.2.2.1]
        · intro x hx fn2 ds2 hk2
          rcases List.mem_cons.mp hx with hxj | hxr
          · subst hxj
            have heq : fn2 = fn ∧ ds2 = ds := by
              have h2 := hk2.symm.trans hk
              cases h2
              exact ⟨rfl, rfl⟩
            obtain ⟨rfl, rfl⟩ := heq
            have hRobs := node_eq_obs (runReady (recomputeOne g x).1 rest).g
              (recomputeOne g x).1 x ish.1.symm (e2 x hjrest)
            show fn2 (ds2.map (valueOf g)) =
              some (valueOf (runReady (recomputeOne g x).1 rest).g x)
            rw [ho, hRobs.2.1, hobs.2.1]
          · have hxj : x ≠ j := fun h => hjrest (h ▸ hxr)
            have hk2a : kindOf (recomputeOne g j).1 x = NodeKind.computed fn2 ds2 :=
              ((hshape1.2 x).symm).trans hk2
            have hmap : ds2.map (valueOf (recomputeOne g j).1) =
                ds2.map (valueOf g) := by
              refine List.map_congr_left ?_
              intro d hd
              have hdmem : d ∈ depsOf g x := by
                rw [depsOf_of_computed g x fn2 ds2 hk2]
                exact hd
              have hdj : d ≠ j := by
                intro h
                exact hready x hx d hdmem
                  (h ▸ hdirty j (List.mem_cons_self j rest))
              exact (hobs_ne d hdj).2.1
            have h5 := e4 x hxr fn2 ds2 hk2a
            rw [hmap] at h5
            show fn2 (ds2.map (valueOf g)) =
              some (valueOf (runReady (recomputeOne g j).1 rest).g x)
            exact h5
      · intro e he
        obtain ⟨heq, pre, f, hprel, hfl, hFP, hUT⟩ := ifail e he
        obtain ⟨fp1, fp2, fp3, fp4, fp5, fp6, fp7, fp8, fp9, fp10⟩ := hFP
        have hfj : f ≠ j := by
          intro hcon
          rw [hcon] at hfl
          exact hjrest hfl
        have hpre_ne_j : ∀ x ∈ pre, x ≠ j := by
          intro x hx1 hcon
          have h2 := hprel x hx1
          rw [hcon] at h2
          exact hjrest h2
        refine ⟨heq, j :: pre, f, ?_, List.mem_cons_of_mem j hfl, ?_, ?_⟩
        · intro x hx
          rcases List.mem_cons.mp hx with h1 | h1
          · exact h1 ▸ List.mem_cons_self j rest
          · exact List.mem_cons_of_mem j (hprel x h1)
        · refine ⟨?_, ?_, ?_, ?_, fp5, ?_, ?_, ?_, fp9, ?_⟩
          · show (⟨j, allDepsSettled g j⟩ : Event) ::
              (runReady (recomputeOne g j).1 rest).events =
              ((j :: pre).map fun x => (⟨x, true⟩ : Event)) ++ [⟨f, true⟩]
            rw [hsettled, fp1, List.map_cons, List.cons_append]
          · intro x hx
            rcases List.mem_cons.mp hx with h1 | h1
            · exact h1 ▸ hdirty j (List.mem_cons_self j rest)
            · have hxj := hpre_ne_j x h1
              rw [← (hobs_ne x hxj).1]
              exact fp2 x h1
          · intro x hx
            rcases List.mem_cons.mp hx with h1 | h1
            · subst h1
              have hxnp : x ∉ pre := fun hc => hpre_ne_j x hc rfl
              have hnodeR := hUT x hxnp (fun hc => hfj hc.symm)
              have hRobs := node_eq_obs (runReady (recomputeOne g x).1 rest).g
                (recomputeOne g x).1 x ish.1.symm hnodeR
              refine ⟨hRobs.1.trans hobs.1, ?_, ?_⟩
              · show callCountOf (runReady (recomputeOne g x).1 rest).g x =
                  callCountOf g x + 1
                rw [hRobs.2.2.2.1, hobs.2.2.2.1]
              · intro fn2 ds2 hk2
                have hkg : kindOf g x = NodeKind.computed fn2 ds2 :=
                  ((hshape1.trans ish).2 x).trans hk2
                have heq2 : fn2 = fn ∧ ds2 = ds := by
                  have h2 := hkg.symm.trans hk
                  cases h2
                  exact ⟨rfl, rfl⟩
                obtain ⟨rfl, rfl⟩ := heq2
                have hmap : ds2.map
                    (valueOf (runReady (recomputeOne g x).1 rest).g) =
                    ds2.map (valueOf g) := by
                  refine List.map_congr_left ?_
                  intro d hd
                  have hdg2 : d ∈ depsOf g x := by
                    rw [depsOf_of_computed g x fn2 ds2 hkg]
                    exact hd
                  have hdnd := hready x (List.mem_cons_self x rest) d hdg2
                  have hdx : d ≠ x := fun hc =>
                    hdnd (hc ▸ hdirty x (List.mem_cons_self x rest))
                  have hdnp : d ∉ pre := by
                    intro hc
                    refine hdnd ?_
                    rw [← (hobs_ne d hdx).1]
                    exact fp2 d hc
                  have hdf : d ≠ f := by
                    intro hc
                    refine hdnd ?_
                    rw [← (hobs_ne d hdx).1]
                    exact hc ▸ fp4
                  have hdobs := node_eq_obs
                    (runReady (recomputeOne g x).1 rest).g
                    (recomputeOne g x).1 d ish.1.symm (hUT d hdnp hdf)
                  exact hdobs.2.1.trans ((hobs_ne d hdx).2.1)
                show fn2 (ds2.map
                    (valueOf (runReady (recomputeOne g x).1 rest).g)) =
                  some (valueOf (runReady (recomputeOne g x).1 rest).g x)
                rw [hmap, ho, hRobs.2.1, hobs.2.1]
            · obtain ⟨q1, q2, q3⟩ := fp3 x h1
              have hxj := hpre_ne_j x h1
              refine ⟨q1, ?_, q3⟩
              rw [q2, (hobs_ne x hxj).2.2.2.1]
          · rw [← (hobs_ne f hfj).1]
            exact fp4
          · rw [fp6, (hobs_ne f hfj).2.1]
          · rw [fp7, (hobs_ne f hfj).2.2.1]
          · rw [fp8, (hobs_ne f hfj).2.2.2.1]
          · intro k hkd
            have hnk := fp10 k hkd
            have hkobs := node_eq_obs (runReady (recomputeOne g j).1 rest).g
              (recomputeOne g j).1 k ish.1.symm hnk
            have hkd1 : stateOf (recomputeOne g j).1 k = NodeState.dirty := by
              rw [← hkobs.1]
              exact hkd
            have hkj : k ≠ j := by
              intro hc
              rw [hc, hobs.1] at hkd1
              cases hkd1
            show (runReady (recomputeOne g j).1 rest).g.node k = g.node k
            rw [hnk, hnodeeq k hkj]
        · intro k hk1 hkf
          have hkj : k ≠ j := fun hc => hk1 (hc ▸ List.mem_cons_self j pre)
          have hknp : k ∉ pre := fun hc => hk1 (List.mem_cons_of_mem j hc)
          show (runReady (recomputeOne g j).1 rest).g.node k = g.node k
          rw [hUT k hknp hkf, hnodeeq k hkj]

theorem propagateAux_fail (fuel : Nat) : ∀ g : Graph, DirtyComputed g →
    SameShape g (propagateAux fuel g).g ∧
    (∀ j, stateOf g j ≠ NodeState.dirty →
      (propagateAux fuel g).g.node j = g.node j) ∧
    (∀ ev ∈ (propagateAux fuel g).events, ev.settled = true) ∧
    ((propagateAux fuel g).err = some PropError.computationFailure →
      ∃ pre f,
        FailedPass g (propagateAux fuel g).g (propagateAux fuel g).events
          pre f) := by
  induction fuel with
  | zero =>
    intro g hdc
    refine ⟨SameShape.refl g, fun jj hjj => rfl, ?_, ?_⟩
    · intro ev hev
      cases hev
    · intro he
      rw [propagateAux] at he
      by_cases hdn : dirtyIds g = []
      · rw [if_pos hdn] at he
        exact Option.noConfusion he
      · rw [if_neg hdn] at he
        exact PropError.noConfusion (Option.some.inj he)
  | succ fuel ih =>
    intro g hdc
    by_cases hdn : dirtyIds g = []
    · rw [propagateAux, if_pos hdn]
      refine ⟨SameShape.refl g, fun jj hjj => rfl, ?_, ?_⟩
      · intro ev hev
        cases hev
      · intro he
        exact Option.noConfusion he
    · by_cases hrn : readyIds g = []
      · rw [propagateAux, if_neg hdn, if_pos hrn]
        refine ⟨SameShape.refl g, fun jj hjj => rfl, ?_, ?_⟩
        · intro ev hev
          cases hev
        · intro he
          exact PropError.noConfusion (Option.some.inj he)
      · have hrsub : ∀ j ∈ readyIds g, stateOf g j = NodeState.dirty :=
          fun j hj => ((mem_readyIds g j).mp hj).1
        have hrready : ∀ j ∈ readyIds g, ∀ d ∈ depsOf g j,
            stateOf g d ≠ NodeState.dirty :=
          fun j hj => ((mem_readyIds g j).mp hj).2
        have hrcomp : ∀ j ∈ readyIds g, ∃ fn ds,
            kindOf g j = NodeKind.computed fn ds :=
          fun j hj => hdc j (hrsub j hj)
        obtain ⟨rsh, rset, rsucc, rfail⟩ :=
          runReady_fail g (readyIds g) (readyIds_nodup g) hrsub hrready hrcomp
        rcases hre : (runReady g (readyIds g)).err with _ | e
        · -- the round succeeded; the failure, if any, is deeper
          obtain ⟨e1, e2, e3, e4⟩ := rsucc hre
          have hnotin_dirty : ∀ k, k ∉ readyIds g →
              stateOf (runReady g (readyIds g)).g k = stateOf g k := by
            intro k hk
            exact (node_eq_obs (runReady g (readyIds g)).g g k rsh.1.symm
              (e2 k hk)).1
          have hdc2 : DirtyComputed (runReady g (readyIds g)).g := by
            intro j hj
            have hjn : j ∉ readyIds g := by
              intro hcon
              rw [(e3 j hcon).1] at hj
              cases hj
            have hjd : stateOf g j = NodeState.dirty := by
              rw [← hnotin_dirty j hjn]
              exact hj
            obtain ⟨fn, ds, hk⟩ := hdc j hjd
            exact ⟨fn, ds, (rsh.2 j).symm.trans hk⟩
          obtain ⟨ish, ibn, iset, ifail⟩ :=
            ih (runReady g (readyIds g)).g hdc2
          have hunfold : propagateAux (fuel + 1) g =
              ⟨(propagateAux fuel (runReady g (readyIds g)).g).g,
               (runReady g (readyIds g)).events ++
                 (propagateAux fuel (runReady g (readyIds g)).g).events,
               (propagateAux fuel (runReady g (readyIds g)).g).err⟩ := by
            rw [propagateAux, if_neg hdn, if_neg hrn, hre]
          rw [hunfold]
          have huntouched : ∀ j, stateOf g j ≠ NodeState.dirty →
              (propagateAux fuel (runReady g (readyIds g)).g).g.node j =
                g.node j := by
            intro j hj
            have hjr : j ∉ readyIds g := fun hcon => hj (hrsub j hcon)
            have h2 : stateOf (runReady g (readyIds g)).g j ≠
                NodeState.dirty := by
              rw [hnotin_dirty j hjr]
              exact hj
            rw [ibn j h2, e2 j hjr]
          refine ⟨rsh.trans ish, huntouched, ?_, ?_⟩
          · intro ev hev
            rcases List.mem_append.mp hev with h1 | h1
            · exact rset ev h1
            · exact iset ev h1
          · intro he
            obtain ⟨pre2, f, hFP⟩ := ifail he
            obtain ⟨fp1, fp2, fp3, fp4, fp5, fp6, fp7, fp8, fp9, fp10⟩ := hFP
            have hf_nr : f ∉ readyIds g := by
              intro hcon
              rw [(e3 f hcon).1] at fp4
              cases fp4
            have hfobs := node_eq_obs (runReady g (readyIds g)).g g f
              rsh.1.symm (e2 f hf_nr)
            have hpre2_gfacts : ∀ x ∈ pre2, x ∉ readyIds g ∧
                stateOf g x = NodeState.dirty := by
              intro x hx
              have hxn : x ∉ readyIds g := by
                intro hcon
                have h2 := fp2 x hx
                rw [(e3 x hcon).1] at h2
                cases h2
              refine ⟨hxn, ?_⟩
              rw [← hnotin_dirty x hxn]
              exact fp2 x hx
            refine ⟨readyIds g ++ pre2, f, ?_, ?_, ?_, ?_, fp5, ?_, ?_, ?_,
              fp9, ?_⟩
            · show (runReady g (readyIds g)).events ++
                (propagateAux fuel (runReady g (readyIds g)).g).events =
                ((readyIds g ++ pre2).map fun x => (⟨x, true⟩ : Event)) ++
                  [⟨f, true⟩]
              rw [e1, fp1, List.map_append, List.append_assoc]
            · intro x hx
              rcases List.mem_append.mp hx with h1 | h1
              · exact hrsub x h1
              · exact (hpre2_gfacts x h1).2
            · intro x hx
              rcases List.mem_append.mp hx with h1 | h1
              · -- settled in the round, untouched afterwards
                have hclean1 := (e3 x h1).1
                have hnd1 : stateOf (runReady g (readyIds g)).g x ≠
                    NodeState.dirty := by
                  rw [hclean1]
                  intro hcon
                  cases hcon
                have hxobs := node_eq_obs
                  (propagateAux fuel (runReady g (readyIds g)).g).g
                  (runReady g (readyIds g)).g x ish.1.symm (ibn x hnd1)
                refine ⟨hxobs.1.trans hclean1, ?_, ?_⟩
                · rw [hxobs.2.2.2.1, (e3 x h1).2]
                · intro fn2 ds2 hk2
                  have hkg : kindOf g x = NodeKind.computed fn2 ds2 :=
                    ((rsh.trans ish).2 x).trans hk2
                  have hvals := e4 x h1 fn2 ds2 hkg
                  have hmap : ds2.map
                      (valueOf (propagateAux fuel
                        (runReady g (readyIds g)).g).g) =
                      ds2.map (valueOf g) := by
                    refine List.map_congr_left ?_
                    intro d hd
                    have hdg : d ∈ depsOf g x := by
                      rw [depsOf_of_computed g x fn2 ds2 hkg]
                      exact hd
                    have hdnd := hrready x h1 d hdg
                    have hdr : d ∉ readyIds g := fun hcon =>
                      hdnd (hrsub d hcon)
                    have hdndR : stateOf (runReady g (readyIds g)).g d ≠
                        NodeState.dirty := by
                      rw [hnotin_dirty d hdr]
                      exact hdnd
                    have q1 := node_eq_obs
                      (propagateAux fuel (runReady g (readyIds g)).g).g
                      (runReady g (readyIds g)).g d ish.1.symm (ibn d hdndR)
                    have q2 := node_eq_obs (runReady g (readyIds g)).g g d
                      rsh.1.symm (e2 d hdr)
                    exact q1.2.1.trans q2.2.1
                  rw [hmap, hvals, hxobs.2.1]
              · obtain ⟨q1, q2, q3⟩ := fp3 x h1
                obtain ⟨hxn, hxd⟩ := hpre2_gfacts x h1
                have hxobs := node_eq_obs (runReady g (readyIds g)).g g x
                  rsh.1.symm (e2 x hxn)
                refine ⟨q1, ?_, q3⟩
                rw [q2, hxobs.2.2.2.1]
            · rw [← hfobs.1]
              exact fp4
            · rw [fp6, hfobs.2.1]
            · rw [fp7, hfobs.2.2.1]
            · rw [fp8, hfobs.2.2.2.1]
            · intro k hkd
              have hnk := fp10 k hkd
              have hkobs := node_eq_obs
                (propagateAux fuel (runReady g (readyIds g)).g).g
                (runReady g (readyIds g)).g k ish.1.symm hnk
              have hkd1 : stateOf (runReady g (readyIds g)).g k =
                  NodeState.dirty := by
                rw [← hkobs.1]
                exact hkd
              have hkr : k ∉ readyIds g := by
                intro hcon
                rw [(e3 k hcon).1] at hkd1
                cases hkd1
              rw [hnk, e2 k hkr]
        · -- the round itself failed: the pass returns immediately
          obtain ⟨heq, pre, f, hprel, hfl, hFP, hUT⟩ := rfail e hre
          have hunfold : propagateAux (fuel + 1) g =
              ⟨(runReady g (readyIds g)).g, (runReady g (readyIds g)).events,
               some e⟩ := by
            rw [propagateAux, if_neg hdn, if_neg hrn, hre]
          rw [hunfold]
          refine ⟨rsh, ?_, rset, ?_⟩
          · intro j hj
            have hjnp : j ∉ pre := by
              intro hcon
              exact hj (hrsub j (hprel j hcon))
            have hjf : j ≠ f := by
              intro hcon
              refine hj ?_
              rw [hcon]
              exact hrsub f hfl
            exact hUT j hjnp hjf
          · intro he2
            exact ⟨pre, f, hFP⟩

theorem set_fail_master (g : Graph) (i : NodeId) (v : Int)
    (hclean : AllClean g) (hi : i < g.size)
    (hsrc : kindOf g i = NodeKind.source)
    (hfail : (set g i v).err = some PropError.computationFailure) :
    ∃ (pre : List NodeId) (f : NodeId),
      (set g i v).events = pre.map (fun j => ⟨j, true⟩) ++ [⟨f, true⟩] ∧
      (∀ ev ∈ (set g i v).events, ev.settled = true) ∧
      Reaches g i f ∧
      stateOf (set g i v).g f = NodeState.error ∧
      valueOf (set g i v).g f = valueOf g f ∧
      versionOf (set g i v).g f = versionOf g f ∧
      callCountOf (set g i v).g f = callCountOf g f + 1 ∧
      (∃ fn ds, kindOf (set g i v).g f = NodeKind.computed fn ds ∧
        fn (ds.map (valueOf (set g i v).g)) = none) ∧
      (∀ j ∈ pre, Reaches g i j ∧ stateOf (set g i v).g j = NodeState.clean ∧
        callCountOf (set g i v).g j = callCountOf g j + 1 ∧
        Consistent (set g i v).g j) ∧
      (∀ j, stateOf (set g i v).g j = NodeState.dirty →
        callCountOf (set g i v).g j = callCountOf g j ∧
        valueOf (set g i v).g j = valueOf g j) := by
  obtain ⟨psh, pbn, pset, pfail⟩ :=
    propagateAux_fail g.size (gmOf g i v) (gmOf_dirtyComputed g i v hclean hi)
  rw [set_eq g i v] at hfail ⊢
  obtain ⟨pre, f, hFP⟩ := pfail hfail
  obtain ⟨fp1, fp2, fp3, fp4, fp5, fp6, fp7, fp8, fp9, fp10⟩ := hFP
  have hfaff : f ∈ affected g i :=
    (gmOf_state_dirty_iff g i v hclean hi f).mp fp4
  have hfi : f ≠ i := by
    intro hc
    exact source_not_in_affected g i hsrc (hc ▸ hfaff)
  refine ⟨pre, f, fp1, pset, reaches_of_mem_affected g i f hfaff, fp5,
    ?_, ?_, ?_, fp9, ?_, ?_⟩
  · rw [fp6, gmOf_value_ne g i v f hfi]
  · rw [fp7, gmOf_version_ne g i v f hfi]
  · rw [fp8, gmOf_callCount g i v f]
  · intro j hj
    have hjaff : j ∈ affected g i :=
      (gmOf_state_dirty_iff g i v hclean hi j).mp (fp2 j hj)
    obtain ⟨q1, q2, q3⟩ := fp3 j hj
    refine ⟨reaches_of_mem_affected g i j hjaff, q1, ?_, q3⟩
    rw [q2, gmOf_callCount g i v j]
  · intro j hjd
    have hnode := fp10 j hjd
    have hobsj := node_eq_obs (propagateAux g.size (gmOf g i v)).g
      (gmOf g i v) j psh.1.symm hnode
    have hjd_gm : stateOf (gmOf g i v) j = NodeState.dirty := by
      rw [← hobsj.1]
      exact hjd
    have hjaff := (gmOf_state_dirty_iff g i v hclean hi j).mp hjd_gm
    have hji : j ≠ i := fun hc =>
      source_not_in_affected g i hsrc (hc ▸ hjaff)
    constructor
    · rw [hobsj.2.2.2.1, gmOf_callCount g i v j]
    · rw [hobsj.2.1, gmOf_value_ne g i v j hji]

theorem allClean_diamondG : AllClean diamondG := by
  show ∀ j < diamondG.size, stateOf diamondG j = NodeState.clean
  decide

theorem acyclic_diamondG : Acyclic diamondG := ⟨fun j => j, by decide⟩

theorem allClean_cycleG : AllClean cycleG := by
  show ∀ j < cycleG.size, stateOf cycleG j = NodeState.clean
  decide

theorem allClean_failG : AllClean failG := by
  show ∀ j < failG.size, stateOf failG j = NodeState.clean
  decide

/-- Claim C1: for every propagation pass triggered by changing a source
node via `set` (on a graph with all nodes clean, an acyclic dependency
relation and non-raising functions), the pass completes without error;
every transitively-dependent computed node — and nothing else — is
recomputed exactly once (its event appears once in the trace and its call
counter advances by exactly one, while untouched nodes' counters do not
move and the source's function is never invoked); and every recomputation
happens only after all of the node's dependencies have settled
(`settled = true` on every event): the glitch-freedom guarantee.  The
`affected`/`Reaches` equivalence ties the processed set to true transitive
dependence.  The diamond instance (d.get() == 10, d invoked exactly once)
is checked in the witness. -/
theorem claim_c1_glitch_free_exactly_once (g : Graph) (i : NodeId) (v : Int)
    (hclean : AllClean g) (ha : Acyclic g) (ht : TotalFns g)
    (hi : i < g.size) (hsrc : kindOf g i = NodeKind.source) :
    (set g i v).err = none ∧
    (∀ ev ∈ (set g i v).events, ev.settled = true) ∧
    (∀ j, (((set g i v).events.map Event.node).count j) =
      if j ∈ affected g i then 1 else 0) ∧
    (∀ j, j ∈ affected g i ↔ Reaches g i j) ∧
    (∀ j, Reaches g i j →
      callCountOf (set g i v).g j = callCountOf g j + 1) ∧
    (∀ j, ¬ Reaches g i j → j ≠ i →
      callCountOf (set g i v).g j = callCountOf g j) ∧
    callCountOf (set g i v).g i = callCountOf g i := by
  obtain ⟨h1, h2, h3, h4, h5, h6, h7, h8, h9, h10⟩ :=
    set_master g i v hclean ha ht hi hsrc
  refine ⟨h1, h2, h3, h4, ?_, ?_, h8⟩
  · intro j hr
    exact (h9 j ((h4 j).mpr hr)).2.1
  · intro j hnr hji
    exact (h10 j (fun hc => hnr ((h4 j).mp hc)) hji).2.1

/-- Witness for C1: the diamond a=var(1), b=calc(a*2), c=calc(a*3),
d=calc(b+c); after a.set(2) the pass succeeds, d.get() == 10, d's call
counter advanced from 0 to exactly 1, and the trace recomputed exactly
[b, c, d], each with its dependencies settled. -/
theorem claim_c1_witness :
    AllClean diamondG ∧ Acyclic diamondG ∧ TotalFns diamondG ∧
    0 < diamondG.size ∧ kindOf diamondG 0 = NodeKind.source ∧
    ((set diamondG 0 2).err = none ∧
     (∀ ev ∈ (set diamondG 0 2).events, ev.settled = true) ∧
     (∀ j, (((set diamondG 0 2).events.map Event.node).count j) =
       if j ∈ affected diamondG 0 then 1 else 0) ∧
     (∀ j, j ∈ affected diamondG 0 ↔ Reaches diamondG 0 j) ∧
     (∀ j, Reaches diamondG 0 j →
       callCountOf (set diamondG 0 2).g j = callCountOf diamondG j + 1) ∧
     (∀ j, ¬ Reaches diamondG 0 j → j ≠ 0 →
       callCountOf (set diamondG 0 2).g j = callCountOf diamondG j) ∧
     callCountOf (set diamondG 0 2).g 0 = callCountOf diamondG 0) ∧
    valueOf (set diamondG 0 2).g 3 = 10 ∧
    callCountOf (set diamondG 0 2).g 3 = 1 ∧
    callCountOf diamondG 3 = 0 ∧
    (set diamondG 0 2).events.map Event.node = [1, 2, 3] :=
  ⟨allClean_diamondG, acyclic_diamondG, totalFns_diamondG, by decide, rfl,
   claim_c1_glitch_free_exactly_once diamondG 0 2 allClean_diamondG
     acyclic_diamondG totalFns_diamondG (by decide) rfl,
   by decide, by decide, by decide, by decide⟩

/-- Claim C2: `set(new_value)` on a source writes the value into its
value cell (new value readable, version incremented), and synchronously
runs a full propagation pass before returning (the returned result
carries no error and the transient dirty mark is already cleared), so
that when `set` returns every transitively-dependent computed node is
clean and consistent with the new value (its cached value equals its
function applied to the current values of its dependencies). -/
theorem claim_c2_set_writes_then_propagates (g : Graph) (i : NodeId) (v : Int)
    (hclean : AllClean g) (ha : Acyclic g) (ht : TotalFns g)
    (hi : i < g.size) (hsrc : kindOf g i = NodeKind.source) :
    valueOf (set g i v).g i = v ∧
    versionOf (set g i v).g i = versionOf g i + 1 ∧
    (set g i v).err = none ∧
    stateOf (set g i v).g i = NodeState.clean ∧
    (∀ j, Reaches g i j → stateOf (set g i v).g j = NodeState.clean ∧
      Consistent (set g i v).g j) := by
  obtain ⟨h1, h2, h3, h4, h5, h6, h7, h8, h9, h10⟩ :=
    set_master g i v hclean ha ht hi hsrc
  refine ⟨h5, h6, h1, h7, ?_⟩
  intro j hr
  exact ⟨(h9 j ((h4 j).mpr hr)).1, (h9 j ((h4 j).mpr hr)).2.2⟩

/-- Witness for C2 at the diamond: after a.set(2) the source reads 2 with
version 1, and b, c, d read 4, 6, 10. -/
theorem claim_c2_witness :
    AllClean diamondG ∧ Acyclic diamondG ∧ TotalFns diamondG ∧
    0 < diamondG.size ∧ kindOf diamondG 0 = NodeKind.source ∧
    (valueOf (set diamondG 0 2).g 0 = 2 ∧
     versionOf (set diamondG 0 2).g 0 = versionOf diamondG 0 + 1 ∧
     (set diamondG 0 2).err = none ∧
     stateOf (set diamondG 0 2).g 0 = NodeState.clean ∧
     (∀ j, Reaches diamondG 0 j →
       stateOf (set diamondG 0 2).g j = NodeState.clean ∧
       Consistent (set diamondG 0 2).g j)) ∧
    valueOf (set diamondG 0 2).g 1 = 4 ∧
    valueOf (set diamondG 0 2).g 2 = 6 ∧
    valueOf (set diamondG 0 2).g 3 = 10 :=
  ⟨allClean_diamondG, acyclic_diamondG, totalFns_diamondG, by decide, rfl,
   claim_c2_set_writes_then_propagates diamondG 0 2 allClean_diamondG
     acyclic_diamondG totalFns_diamondG (by decide) rfl,
   by decide, by decide, by decide⟩

/-- Claim C3: `get()` on a source node returns the node's current stored
value, triggers no recomputation and leaves the graph (hence the node's
state and every call counter) unchanged. -/
theorem claim_c3_source_get_pure (g : Graph) (i : NodeId)
    (hsrc : kindOf g i = NodeKind.source) :
    get g i = (some (valueOf g i), g) ∧
    (get g i).2 = g ∧
    (∀ j, callCountOf (get g i).2 j = callCountOf g j) := by
  have h := get_source g i hsrc
  exact ⟨h, by rw [h], fun j => by rw [h]⟩

/-- Witness for C3 at the diamond source a. -/
theorem claim_c3_witness :
    kindOf diamondG 0 = NodeKind.source ∧
    (get diamondG 0 = (some (valueOf diamondG 0), diamondG) ∧
     (get diamondG 0).2 = diamondG ∧
     (∀ j, callCountOf (get diamondG 0).2 j = callCountOf diamondG j)) ∧
    valueOf diamondG 0 = 1 :=
  ⟨rfl, claim_c3_source_get_pure diamondG 0 rfl, by decide⟩

/-- Claim C4: `var(initial_value)` creates a fresh source node seeded
with the initial value: immediately after construction the stored value
equals the provided value, the node is Clean, its version counter starts
at 0 and its function has never been invoked. -/
theorem claim_c4_var_seeds_initial (v : Int) :
    (var v).cell.value = v ∧ (var v).kind = NodeKind.source ∧
    (var v).state = NodeState.clean ∧ (var v).cell.read = (v, 0) ∧
    (var v).callCount = 0 :=
  ⟨rfl, rfl, rfl, rfl, rfl⟩

/-- Claim C5: `get()` on a clean computed node is a memoized read: it
returns the cached value, does not re-invoke the stored function (the
call counter is unchanged because the graph is returned unchanged), and
two consecutive `get()` calls with no intervening write return the same
result. -/
theorem claim_c5_memoized_clean_get (g : Graph) (j : NodeId)
    (fn : List Int → Option Int) (ds : List NodeId)
    (hk : kindOf g j = NodeKind.computed fn ds)
    (hst : stateOf g j = NodeState.clean) :
    get g j = (some (valueOf g j), g) ∧
    callCountOf (get g j).2 j = callCountOf g j ∧
    get (get g j).2 j = get g j := by
  have h := get_clean_computed g j fn ds hk hst
  refine ⟨h, by rw [h], ?_⟩
  rw [h]
  exact h

/-- Witness for C5 at the clean computed node b of the diamond. -/
theorem claim_c5_witness :
    kindOf diamondG 1 = NodeKind.computed (fun vs => some (vs.getD 0 0 * 2)) [0] ∧
    stateOf diamondG 1 = NodeState.clean ∧
    (get diamondG 1 = (some (valueOf diamondG 1), diamondG) ∧
     callCountOf (get diamondG 1).2 1 = callCountOf diamondG 1 ∧
     get (get diamondG 1).2 1 = get diamondG 1) ∧
    valueOf diamondG 1 = 2 :=
  ⟨rfl, rfl,
   claim_c5_memoized_clean_get diamondG 1 (fun vs => some (vs.getD 0 0 * 2)) [0]
     rfl rfl,
   by decide⟩

/-- Claim C6: triggering propagation into a dependency cycle among
computed nodes terminates with a CycleDetected error surfaced to the
originating `set` caller (the model is structurally terminating, so no
infinite loop or stack overflow is possible), and nodes already settled
in that pass keep their new values: every recomputation event of the
aborted pass still reads clean and consistent in the final graph — no
rollback. -/
theorem claim_c6_cycle_detected (g : Graph) (i : NodeId) (v : Int)
    (j0 : NodeId) (l : List NodeId) (hclean : AllClean g) (ht : TotalFns g)
    (hi : i < g.size) (hsrc : kindOf g i = NodeKind.source)
    (hreach : Reaches g i j0) (hcyc : DepPath g j0 l j0) :
    (set g i v).err = some PropError.cycleDetected ∧
    (∀ ev ∈ (set g i v).events, ev.settled = true ∧
      stateOf (set g i v).g ev.node = NodeState.clean ∧
      Consistent (set g i v).g ev.node) :=
  set_cycle_master g i v j0 l hclean ht hi hsrc hreach hcyc

/-- Witness for C6: s=var(1) feeding the cycle p=calc(s+q+1),
q=calc(p+1), plus r=calc(s*2); s.set(5) reports CycleDetected, r settled
to 10 and keeps it (no rollback), the cycle nodes stay dirty. -/
theorem claim_c6_witness :
    AllClean cycleG ∧ TotalFns cycleG ∧ 0 < cycleG.size ∧
    kindOf cycleG 0 = NodeKind.source ∧
    ((set cycleG 0 5).err = some PropError.cycleDetected ∧
     (∀ ev ∈ (set cycleG 0 5).events, ev.settled = true ∧
       stateOf (set cycleG 0 5).g ev.node = NodeState.clean ∧
       Consistent (set cycleG 0 5).g ev.node)) ∧
    stateOf (set cycleG 0 5).g 3 = NodeState.clean ∧
    valueOf (set cycleG 0 5).g 3 = 10 ∧
    stateOf (set cycleG 0 5).g 1 = NodeState.dirty ∧
    stateOf (set cycleG 0 5).g 2 = NodeState.dirty ∧
    (set cycleG 0 5).events.map Event.node = [3] :=
  ⟨allClean_cycleG, totalFns_cycleG, by decide, rfl,
   claim_c6_cycle_detected cycleG 0 5 1 [2] allClean_cycleG totalFns_cycleG
     (by decide) rfl (Reaches.direct 1 (by decide) (by decide))
     (DepPath.cons 2 1 1 [] (by decide) (DepPath.single 1 2 (by decide))),
   by decide, by decide, by decide, by decide, by decide⟩

/-- Claim C7: two universal halves.  Get-triggered: when a dirty
computed node's stored function raises during recomputation, the node
transitions to the Error state, its previous cached value and version
remain readable, the invocation is counted, no other node is touched,
and the error (`none`) is surfaced to the caller of `get`.
Propagation-triggered: for every `set`-rooted pass on an initially clean
graph that surfaces ComputationFailure to the `set` caller, the trace is
a settled prefix followed by the failing node — a transitive dependent
whose function indeed raises on the final dependency values — which
entered the Error state keeping its previous cached value and version;
the settled prefix is not reverted (those dependents end clean, invoked
exactly once, consistent with current dependency values), and the
failure halts further processing: every node still dirty when the pass
returns was never invoked and keeps its old value. -/
theorem claim_c7_failure_error_state (g : Graph) (j : NodeId)
    (fn : List Int → Option Int) (ds : List NodeId)
    (hk : kindOf g j = NodeKind.computed fn ds)
    (hst : stateOf g j = NodeState.dirty)
    (hv : fn (ds.map (valueOf g)) = none)
    (gp : Graph) (ip : NodeId) (vp : Int)
    (hpclean : AllClean gp) (hpi : ip < gp.size)
    (hpsrc : kindOf gp ip = NodeKind.source) :
    ((get g j).1 = none ∧
     stateOf (get g j).2 j = NodeState.error ∧
     valueOf (get g j).2 j = valueOf g j ∧
     versionOf (get g j).2 j = versionOf g j ∧
     callCountOf (get g j).2 j = callCountOf g j + 1 ∧
     (∀ k, k ≠ j → (get g j).2.node k = g.node k)) ∧
    ((set gp ip vp).err = some PropError.computationFailure →
      ∃ (pre : List NodeId) (f : NodeId),
        (set gp ip vp).events = pre.map (fun x => ⟨x, true⟩) ++ [⟨f, true⟩] ∧
        (∀ ev ∈ (set gp ip vp).events, ev.settled = true) ∧
        Reaches gp ip f ∧
        stateOf (set gp ip vp).g f = NodeState.error ∧
        valueOf (set gp ip vp).g f = valueOf gp f ∧
        versionOf (set gp ip vp).g f = versionOf gp f ∧
        callCountOf (set gp ip vp).g f = callCountOf gp f + 1 ∧
        (∃ fn2 ds2, kindOf (set gp ip vp).g f = NodeKind.computed fn2 ds2 ∧
          fn2 (ds2.map (valueOf (set gp ip vp).g)) = none) ∧
        (∀ x ∈ pre, Reaches gp ip x ∧
          stateOf (set gp ip vp).g x = NodeState.clean ∧
          callCountOf (set gp ip vp).g x = callCountOf gp x + 1 ∧
          Consistent (set gp ip vp).g x) ∧
        (∀ x, stateOf (set gp ip vp).g x = NodeState.dirty →
          callCountOf (set gp ip vp).g x = callCountOf gp x ∧
          valueOf (set gp ip vp).g x = valueOf gp x)) := by
  constructor
  · have hg := get_dirty_fail g j fn ds hk hst hv
    have hobs := recomputeOne_none_obs g j fn ds hk hv
    rw [hg]
    exact ⟨rfl, hobs.1, hobs.2.1, hobs.2.2.1, hobs.2.2.2.1,
      fun k hkj => recomputeOne_node_ne g j k hkj⟩
  · intro hfail
    exact set_fail_master gp ip vp hpclean hpi hpsrc hfail

/-- Witness for C7: the get half at a dirty always-raising node (`get`
returns the error, Error state, value 42 and version 3 preserved); the
pass half at `failG` (a → b → c(fails) → e): `a.set(2)` surfaces
ComputationFailure, and the concrete conjuncts confirm the halt — b
settled to 4 and kept (not reverted), c in Error with its old value 7,
the downstream node e still dirty and never invoked, the trace exactly
[b, c]. -/
theorem claim_c7_witness :
    kindOf dirtyFailG 0 = NodeKind.computed (fun _ => none) [] ∧
    stateOf dirtyFailG 0 = NodeState.dirty ∧
    AllClean failG ∧ 0 < failG.size ∧ kindOf failG 0 = NodeKind.source ∧
    (set failG 0 2).err = some PropError.computationFailure ∧
    ((get dirtyFailG 0).1 = none ∧
     stateOf (get dirtyFailG 0).2 0 = NodeState.error ∧
     valueOf (get dirtyFailG 0).2 0 = valueOf dirtyFailG 0 ∧
     versionOf (get dirtyFailG 0).2 0 = versionOf dirtyFailG 0 ∧
     callCountOf (get dirtyFailG 0).2 0 = callCountOf dirtyFailG 0 + 1 ∧
     (∀ k, k ≠ 0 → (get dirtyFailG 0).2.node k = dirtyFailG.node k)) ∧
    (∃ (pre : List NodeId) (f : NodeId),
      (set failG 0 2).events = pre.map (fun x => ⟨x, true⟩) ++ [⟨f, true⟩] ∧
      (∀ ev ∈ (set failG 0 2).events, ev.settled = true) ∧
      Reaches failG 0 f ∧
      stateOf (set failG 0 2).g f = NodeState.error ∧
      valueOf (set failG 0 2).g f = valueOf failG f ∧
      versionOf (set failG 0 2).g f = versionOf failG f ∧
      callCountOf (set failG 0 2).g f = callCountOf failG f + 1 ∧
      (∃ fn2 ds2, kindOf (set failG 0 2).g f = NodeKind.computed fn2 ds2 ∧
        fn2 (ds2.map (valueOf (set failG 0 2).g)) = none) ∧
      (∀ x ∈ pre, Reaches failG 0 x ∧
        stateOf (set failG 0 2).g x = NodeState.clean ∧
        callCountOf (set failG 0 2).g x = callCountOf failG x + 1 ∧
        Consistent (set failG 0 2).g x) ∧
      (∀ x, stateOf (set failG 0 2).g x = NodeState.dirty →
        callCountOf (set failG 0 2).g x = callCountOf failG x ∧
        valueOf (set failG 0 2).g x = valueOf failG x)) ∧
    valueOf dirtyFailG 0 = 42 ∧
    stateOf (set failG 0 2).g 2 = NodeState.error ∧
    valueOf (set failG 0 2).g 2 = 7 ∧
    stateOf (set failG 0 2).g 1 = NodeState.clean ∧
    valueOf (set failG 0 2).g 1 = 4 ∧
    stateOf (set failG 0 2).g 3 = NodeState.dirty ∧
    callCountOf (set failG 0 2).g 3 = 0 ∧
    (set failG 0 2).events.map Event.node = [1, 2] :=
  ⟨rfl, rfl, allClean_failG, by decide, rfl, by decide,
   (claim_c7_failure_error_state dirtyFailG 0 (fun _ => none) [] rfl rfl rfl
     failG 0 2 allClean_failG (by decide) rfl).1,
   (claim_c7_failure_error_state dirtyFailG 0 (fun _ => none) [] rfl rfl rfl
     failG 0 2 allClean_failG (by decide) rfl).2 (by decide),
   by decide, by decide, by decide, by decide, by decide, by decide,
   by decide, by decide⟩

/-- Claim C8: the value cell's version counter only ever increases:
`read` is a pure pair of the current value and version (total, no side
effects), `write` stores the new value and returns version + 1, and over
any sequence of writes the returned versions are pairwise strictly
increasing and all strictly above the starting version. -/
theorem claim_c8_version_monotone (c : ValueCell) (v : Int) (vs : List Int) :
    ValueCell.read c = (c.value, c.version) ∧
    (c.write v).1.value = v ∧
    (c.write v).2 = c.version + 1 ∧
    (c.write v).1.version = (c.write v).2 ∧
    List.Pairwise (fun a b => a < b) (c.version :: (writeSeq c vs).2) :=
  ⟨rfl, rfl, rfl, rfl, writeSeq_versions_gt vs c⟩

end Reaction

namespace Hdr

theorem retDepth_fn (r : CppType) (ps : List CppType) :
    (CppType.fn r ps).retDepth = r.retDepth + 1 := rfl

theorem fn_ne_ret (r : CppType) (ps : List CppType) : CppType.fn r ps ≠ r := by
  intro h
  have h2 := congrArg CppType.retDepth h
  rw [retDepth_fn] at h2
  omega

/-- Counterexample to C9 as stated: at the concrete input of a function
type and an empty argument-handle pack, `calc` yields
`DataSource<Func>`, a single-argument instantiation that selects the
`Expression<Type>` partial specialization — whose own field list is
empty, so the stored state is not the function object plus a tuple of
argument handles (there is no `m_fun`/`m_args` member at all). -/
theorem claim_c9_counterexample :
    selectExpr (calcTemplateArgs (CppType.fn (CppType.scalar "int") []) []) =
      some (ExprInst.spec (CppType.fn (CppType.scalar "int") [])) ∧
    exprOwnFields (ExprInst.spec (CppType.fn (CppType.scalar "int") [])) = [] ∧
    (∀ f : FieldDecl,
      f ∉ exprOwnFields (ExprInst.spec (CppType.fn (CppType.scalar "int") []))) ∧
    ([] : List FieldDecl) ≠
      [⟨"m_fun", CppType.fn (CppType.scalar "int") []⟩,
       ⟨"m_args", CppType.tuple []⟩] := by
  refine ⟨rfl, rfl, ?_, ?_⟩
  · intro f hf
    cases hf
  · intro h
    cases h

/-- Claim C9 (amended): `calc(f, args...)` returns
`DataSource<Func, Args...>` whose first template parameter is the
function type itself.  When `args` is nonempty the primary `Expression`
template is selected, whose own stored state is exactly the function
object `m_fun : Func` and the tuple of argument handles
`m_args : tuple<Args...>`, and whose `Resource<>` base is an ill-formed
instantiation providing no value storage; when `args` is empty the
`Expression<Type>` partial specialization is selected instead, which
declares no own fields and stores only the null
`unique_ptr<Func> m_value` of its `Resource<Func>` base.  In every case
no computed result of `f` is stored and the value-storage type is never
the function's return type. -/
theorem claim_c9_calc_stores_fn_and_args (ret : CppType) (ps : List CppType)
    (argTs : List CppType) :
    (calcTemplateArgs (CppType.fn ret ps) argTs).head? =
      some (CppType.fn ret ps) ∧
    (argTs ≠ [] →
      selectExpr (calcTemplateArgs (CppType.fn ret ps) argTs) =
        some (ExprInst.primary (CppType.fn ret ps) argTs) ∧
      exprOwnFields (ExprInst.primary (CppType.fn ret ps) argTs) =
        [⟨"m_fun", CppType.fn ret ps⟩, ⟨"m_args", CppType.tuple argTs⟩] ∧
      resourceFields (exprBaseArgs (ExprInst.primary (CppType.fn ret ps) argTs)) =
        none) ∧
    (argTs = [] →
      selectExpr (calcTemplateArgs (CppType.fn ret ps) argTs) =
        some (ExprInst.spec (CppType.fn ret ps)) ∧
      exprOwnFields (ExprInst.spec (CppType.fn ret ps)) = [] ∧
      resourceFields (exprBaseArgs (ExprInst.spec (CppType.fn ret ps))) =
        some [⟨"m_value", CppType.uniquePtr (CppType.fn ret ps)⟩]) ∧
    valueTypeOf (calcTemplateArgs (CppType.fn ret ps) argTs) ≠ some ret := by
  cases argTs with
  | nil =>
    refine ⟨rfl, ?_, ?_, ?_⟩
    · intro h
      exact absurd rfl h
    · intro h
      exact ⟨rfl, rfl, rfl⟩
    · intro h
      have h2 : some (CppType.fn ret ps) = some ret := h
      have h3 : CppType.fn ret ps = ret := by
        injection h2
      exact fn_ne_ret ret ps h3
  | cons a t =>
    refine ⟨rfl, ?_, ?_, ?_⟩
    · intro h
      exact ⟨rfl, rfl, rfl⟩
    · intro h
      cases h
    · intro h
      exact Option.noConfusion h

/-- Witness for C9 (amended) at Func = int(), one int argument handle and
also the empty-pack case. -/
theorem claim_c9_witness :
    selectExpr (calcTemplateArgs (CppType.fn (CppType.scalar "int") [])
        [CppType.scalar "int"]) =
      some (ExprInst.primary (CppType.fn (CppType.scalar "int") [])
        [CppType.scalar "int"]) ∧
    exprOwnFields (ExprInst.primary (CppType.fn (CppType.scalar "int") [])
        [CppType.scalar "int"]) =
      [⟨"m_fun", CppType.fn (CppType.scalar "int") []⟩,
       ⟨"m_args", CppType.tuple [CppType.scalar "int"]⟩] ∧
    valueTypeOf (calcTemplateArgs (CppType.fn (CppType.scalar "int") [])
        [CppType.scalar "int"]) ≠ some (CppType.scalar "int") ∧
    valueTypeOf (calcTemplateArgs (CppType.fn (CppType.scalar "int") []) []) ≠
      some (CppType.scalar "int") := by
  refine ⟨?_, ?_, ?_, ?_⟩
  · exact ((claim_c9_calc_stores_fn_and_args (CppType.scalar "int") []
      [CppType.scalar "int"]).2.1 (List.cons_ne_nil _ _)).1
  · exact ((claim_c9_calc_stores_fn_and_args (CppType.scalar "int") []
      [CppType.scalar "int"]).2.1 (List.cons_ne_nil _ _)).2.1
  · exact (claim_c9_calc_stores_fn_and_args (CppType.scalar "int") []
      [CppType.scalar "int"]).2.2.2
  · exact (claim_c9_calc_stores_fn_and_args (CppType.scalar "int") [] []).2.2.2

/-- Claim C10: the headers declare no constructors, so every
`Resource`/`Expression`/`DataSource` object is default-constructed and
its uniquely-owned `m_value` pointer is empty (null); dereferencing it
must therefore handle the empty case (`deref` returns `none`), and no
two such nodes can share value storage (null pointers own no
allocation, and sharing requires both to own the same one). -/
theorem claim_c10_value_storage_null (α : Type) :
    (ResourceObj.defaultCtor α).m_value.owner = none ∧
    (ExpressionSpecObj.defaultCtor α).base.m_value.owner = none ∧
    (DataSourceObj.defaultCtor α).base.base.m_value.owner = none ∧
    UniquePtr.deref (ResourceObj.defaultCtor α).m_value = none ∧
    (∀ p q : UniquePtr α, p.owner = none → q.owner = none →
      ¬ sharesStorage p q) := by
  refine ⟨rfl, rfl, rfl, rfl, ?_⟩
  intro p q hp hq hcon
  obtain ⟨a, x, y, h1, h2⟩ := hcon
  rw [hp] at h1
  cases h1

/-- Witness for C10 at a concrete pointee type. -/
theorem claim_c10_witness :
    (ResourceObj.defaultCtor Nat).m_value.owner = none ∧
    ¬ sharesStorage (UniquePtr.defaultCtor Nat) (UniquePtr.defaultCtor Nat) :=
  ⟨(claim_c10_value_storage_null Nat).1,
   (claim_c10_value_storage_null Nat).2.2.2.2
     (UniquePtr.defaultCtor Nat) (UniquePtr.defaultCtor Nat) rfl rfl⟩

end Hdr
